import Mathlib

/-!
Shallow embedding of the qiskit-aqua quadratic-program / converter pipeline and
of the operator-algebra layer, together with theorems settling the claims about
the natural-language specification.  Real numbers of the Python code are
modelled by the rationals, which keeps every definition executable and every
concrete statement decidable.
-/

namespace QiskitAqua

/-! ### Decimal string rendering of naturals

The Python code builds names such as `x3` or `c0` with `'x{}'.format(k)`.
We model the decimal rendering with a structurally recursive (fuel-based)
digit extractor so that concrete names evaluate by `decide`, and prove the
rendering injective via `Nat.digits`. -/

/-- Little-endian decimal digit list, fuel-based so the kernel can reduce it. -/
def decDigitsGo : Nat → Nat → List Nat
  | 0, _ => []
  | _ + 1, 0 => []
  | fuel + 1, n + 1 => ((n + 1) % 10) :: decDigitsGo fuel ((n + 1) / 10)

/-- Little-endian decimal digits of `n` (empty for 0), agrees with `Nat.digits 10`. -/
def decDigits (n : Nat) : List Nat := decDigitsGo n n

/-- The character for a single decimal digit. -/
def digitChar : Nat → Char
  | 0 => '0' | 1 => '1' | 2 => '2' | 3 => '3' | 4 => '4'
  | 5 => '5' | 6 => '6' | 7 => '7' | 8 => '8' | _ => '9'

/-- Decimal string of a natural number, as produced by `'{}'.format(k)`. -/
def natStr (n : Nat) : String :=
  if n = 0 then "0" else String.mk ((decDigits n).reverse.map digitChar)

theorem decDigitsGo_eq_digits (fuel n : Nat) (h : n ≤ fuel) :
    decDigitsGo fuel n = Nat.digits 10 n := by
  induction fuel generalizing n with
  | zero =>
    interval_cases n
    simp [decDigitsGo]
  | succ fuel ih =>
    cases n with
    | zero => simp [decDigitsGo]
    | succ n =>
      rw [decDigitsGo, Nat.digits_def' (by norm_num : (1:Nat) < 10) (Nat.succ_pos n)]
      rw [ih ((n + 1) / 10) ?_]
      have h1 : (n + 1) / 10 < n + 1 := Nat.div_lt_self (Nat.succ_pos n) (by norm_num)
      omega

theorem decDigits_eq_digits (n : Nat) : decDigits n = Nat.digits 10 n :=
  decDigitsGo_eq_digits n n le_rfl

theorem decDigits_injective : Function.Injective decDigits := by
  intro a b h
  rw [decDigits_eq_digits, decDigits_eq_digits] at h
  have := congrArg (Nat.ofDigits 10) h
  rwa [Nat.ofDigits_digits, Nat.ofDigits_digits] at this

theorem digitChar_inj_lt {a b : Nat} (ha : a < 10) (hb : b < 10)
    (h : digitChar a = digitChar b) : a = b := by
  interval_cases a <;> interval_cases b <;> simp_all [digitChar]

theorem decDigits_lt_ten (n : Nat) : ∀ d ∈ decDigits n, d < 10 := by
  intro d hd
  rw [decDigits_eq_digits] at hd
  exact Nat.digits_lt_base (by norm_num) hd

theorem map_digitChar_inj {l1 l2 : List Nat} (h1 : ∀ d ∈ l1, d < 10)
    (h2 : ∀ d ∈ l2, d < 10) (h : l1.map digitChar = l2.map digitChar) : l1 = l2 := by
  induction l1 generalizing l2 with
  | nil => cases l2 <;> simp_all
  | cons a t ih =>
    cases l2 with
    | nil => simp_all
    | cons b t2 =>
      simp only [List.map_cons, List.cons.injEq] at h
      have ha := h1 a (by simp)
      have hb := h2 b (by simp)
      have : a = b := digitChar_inj_lt ha hb h.1
      have : t = t2 := ih (fun d hd => h1 d (by simp [hd])) (fun d hd => h2 d (by simp [hd])) h.2
      simp_all

theorem natStr_ne_str_zero {b : Nat} (hb : b ≠ 0) : natStr b ≠ "0" := by
  intro h
  have hd := congrArg String.data h
  rw [natStr, if_neg hb] at hd
  have hne : decDigits b ≠ [] := by
    rw [decDigits_eq_digits]
    exact Nat.digits_ne_nil_iff_ne_zero.mpr hb
  obtain ⟨d, t, hrev⟩ : ∃ d t, (decDigits b).reverse = d :: t := by
    cases hrw : (decDigits b).reverse with
    | nil =>
      have : decDigits b = [] := by
        have := congrArg List.reverse hrw
        simpa using this
      exact absurd this hne
    | cons d t => exact ⟨d, t, rfl⟩
  rw [hrev] at hd
  simp only [List.map_cons] at hd
  have hchar : digitChar d = '0' := by
    have : digitChar d :: t.map digitChar = ['0'] := hd
    exact (List.cons.injEq _ _ _ _ ▸ this).1
  have ht : t = [] := by
    have hlen := congrArg List.length hd
    simp at hlen
    simpa using hlen
  have hsingle : decDigits b = [d] := by
    have := congrArg List.reverse hrev
    simpa [ht] using this
  have hd0 : d ≠ 0 := by
    have hgl := Nat.getLast_digit_ne_zero 10 hb
    have : (decDigits b).getLast hne = d := by
      simp [hsingle]
    rw [decDigits_eq_digits] at hsingle
    simpa [hsingle] using hgl
  have hd10 : d < 10 := decDigits_lt_ten b d (by simp [hsingle])
  interval_cases d <;> simp_all [digitChar]

theorem natStr_injective : Function.Injective natStr := by
  intro a b h
  by_cases ha : a = 0 <;> by_cases hb : b = 0
  · omega
  · exact absurd h.symm (by simpa [natStr, ha] using natStr_ne_str_zero hb)
  · exact absurd h (by simpa [natStr, hb] using natStr_ne_str_zero ha)
  · simp only [natStr, ha, hb, if_neg] at h
    have hd := congrArg String.data h
    simp only [String.data] at hd
    have := map_digitChar_inj
      (fun d hd => decDigits_lt_ten a d (List.mem_reverse.mp hd))
      (fun d hd => decDigits_lt_ten b d (List.mem_reverse.mp hd)) hd
    have := congrArg List.reverse this
    simp only [List.reverse_reverse] at this
    exact decDigits_injective this

/-- Prepending a fixed prefix string keeps distinct decimal strings distinct. -/
theorem append_natStr_inj (p : String) {a b : Nat}
    (h : p ++ natStr a = p ++ natStr b) : a = b := by
  have hd := congrArg String.data h
  simp only [String.data_append, List.append_cancel_left_eq] at hd
  exact natStr_injective (String.ext hd)

/-! ### Sparse dictionaries

Python dictionaries keyed by variable name (or index pairs), with insertion
order, are modelled as association lists.  `upsert` models `d[k] += v` on a
`defaultdict(float)`; `pruneZeros` models the sparse-matrix convention that
zero coefficients are not stored (per the data-model section of the spec,
expression classes prune zero coefficients). -/

/-- `d[k] += v` on an insertion-ordered dict defaulting to 0. -/
def upsert {α : Type} [DecidableEq α] : List (α × ℚ) → α → ℚ → List (α × ℚ)
  | [], k, v => [(k, v)]
  | (k', v') :: rest, k, v =>
    if k' = k then (k', v' + v) :: rest else (k', v') :: upsert rest k v

/-- Accumulate a list of key/value increments into a dict, starting from `acc`. -/
def accumInto {α : Type} [DecidableEq α] (acc : List (α × ℚ)) (l : List (α × ℚ)) :
    List (α × ℚ) :=
  l.foldl (fun a kv => upsert a kv.1 kv.2) acc

/-- Drop zero coefficients (sparse storage, per the spec's data model). -/
def pruneZeros {α : Type} (l : List (α × ℚ)) : List (α × ℚ) :=
  l.filter (fun kv => kv.2 ≠ 0)

/-- Coefficient lookup in a sparse dict (0 when absent). -/
def coeffOf {α : Type} [DecidableEq α] (l : List (α × ℚ)) (k : α) : ℚ :=
  match l.find? (fun kv => kv.1 = k) with
  | some kv => kv.2
  | none => 0

/-! ### The quadratic-program data model

Embedding of `qiskit/optimization/problems/quadratic_program.py` (and
`constraint.py`).  Expressions are stored keyed by variable *name*; the Python
classes key by index internally but the substitution engine works throughout
on `to_dict(use_name=True)` views, and the program invariant makes the two
keyings interchangeable.  The sentinel `infinity` is a large finite constant
(the package defines `infinity = 1e20`; the substitution code compares bounds
with `abs(lb) < infinity`). -/

def infinity : ℚ := 10 ^ 20

inductive VarType
  | continuous
  | binary
  | integer
deriving DecidableEq, Repr

structure Variable where
  name : String
  lowerbound : ℚ
  upperbound : ℚ
  vartype : VarType
deriving DecidableEq, Repr

/-- `Constraint.Sense` from `constraint.py`. -/
inductive ConstraintSense
  | le
  | ge
  | eq
deriving DecidableEq, Repr

inductive ObjSense
  | minimize
  | maximize
deriving DecidableEq, Repr

/-- Sparse linear coefficients, keyed by variable name. -/
abbrev LinCoeffs := List (String × ℚ)

/-- Sparse quadratic coefficients, keyed by ordered pairs of variable names. -/
abbrev QuadCoeffs := List ((String × String) × ℚ)

structure QuadraticObjective where
  constant : ℚ
  linear : LinCoeffs
  quadratic : QuadCoeffs
  sense : ObjSense
deriving DecidableEq, Repr

structure LinearConstraint where
  name : String
  linear : LinCoeffs
  sense : ConstraintSense
  rhs : ℚ
deriving DecidableEq, Repr

structure QuadraticConstraint where
  name : String
  linear : LinCoeffs
  quadratic : QuadCoeffs
  sense : ConstraintSense
  rhs : ℚ
deriving DecidableEq, Repr

structure QuadraticProgram where
  name : String
  vars : List Variable
  linear_constraints : List LinearConstraint
  quadratic_constraints : List QuadraticConstraint
  objective : QuadraticObjective
deriving DecidableEq, Repr

/-- Errors raised by the embedded code (`QiskitOptimizationError` variants and
Python's `KeyError`). -/
inductive QError
  | duplicateVarName (name : String)
  | duplicateConstraintName (name : String)
  | keyError (name : String)
  | duplicateSubstitution (name : String)
  | selfSubstitution (name : String)
  | chainedSubstitution (name : String)
  | zeroCoefficient (name : String)
  | incompatibleProblem (msg : String)
  | unsupportedConstraint (name : String)
  | pauliXExists
  | tooManyPauliZs
  | dimensionMismatch (a b : Nat)
deriving DecidableEq, Repr

namespace QuadraticProgram

/-- A fresh program, as built by `QuadraticProgram(name=...)`. -/
def empty (name : String) : QuadraticProgram :=
  ⟨name, [], [], [], ⟨0, [], [], ObjSense.minimize⟩⟩

def get_num_vars (p : QuadraticProgram) : Nat := p.vars.length

def get_num_vars_of_type (p : QuadraticProgram) (t : VarType) : Nat :=
  (p.vars.filter (fun v => v.vartype = t)).length

def get_num_continuous_vars (p : QuadraticProgram) : Nat :=
  p.get_num_vars_of_type VarType.continuous

def get_num_binary_vars (p : QuadraticProgram) : Nat :=
  p.get_num_vars_of_type VarType.binary

def get_num_integer_vars (p : QuadraticProgram) : Nat :=
  p.get_num_vars_of_type VarType.integer

/-- Whether `name` is a key of the variable index map. -/
def varNameTaken (p : QuadraticProgram) (s : String) : Bool :=
  p.vars.any (fun v => v.name = s)

/-- Name lookup (`variables_index` then `variables`), `none` models `KeyError`. -/
def findVar (p : QuadraticProgram) (s : String) : Option Variable :=
  p.vars.find? (fun v => v.name = s)

/-- The `while 'x{}'.format(k) in self._variables_index: k += 1` search loop in
`_add_variable` (fuel-based; the fuel used by callers always suffices to find a
free name, see `findFreeNum_spec`). -/
def findFreeNum (taken : String → Bool) (pre : String) : Nat → Nat → Nat
  | k, 0 => k
  | k, fuel + 1 => if taken (pre ++ natStr k) then findFreeNum taken pre (k + 1) fuel else k

/-- `QuadraticProgram._add_variable`.  An explicit name that collides raises;
a missing (or, by Python truthiness, empty) name is auto-generated as `x{k}`,
with `k` starting from the current variable count. -/
def add_variable (p : QuadraticProgram) (name : Option String) (lowerbound upperbound : ℚ)
    (vartype : VarType) : Except QError QuadraticProgram :=
  match name with
  | some s =>
    if s = "" then
      let k := findFreeNum p.varNameTaken "x" p.get_num_vars (p.get_num_vars + 1)
      Except.ok { p with vars := p.vars ++ [⟨"x" ++ natStr k, lowerbound, upperbound, vartype⟩] }
    else if p.varNameTaken s then
      Except.error (QError.duplicateVarName s)
    else
      Except.ok { p with vars := p.vars ++ [⟨s, lowerbound, upperbound, vartype⟩] }
  | none =>
    let k := findFreeNum p.varNameTaken "x" p.get_num_vars (p.get_num_vars + 1)
    Except.ok { p with vars := p.vars ++ [⟨"x" ++ natStr k, lowerbound, upperbound, vartype⟩] }

def continuous_var (p : QuadraticProgram) (name : Option String) (lowerbound upperbound : ℚ) :
    Except QError QuadraticProgram :=
  p.add_variable name lowerbound upperbound VarType.continuous

def binary_var (p : QuadraticProgram) (name : Option String) : Except QError QuadraticProgram :=
  p.add_variable name 0 1 VarType.binary

def integer_var (p : QuadraticProgram) (name : Option String) (lowerbound upperbound : ℚ) :
    Except QError QuadraticProgram :=
  p.add_variable name lowerbound upperbound VarType.integer

def constraintNameTaken (p : QuadraticProgram) (s : String) : Bool :=
  p.linear_constraints.any (fun c => c.name = s)

def quadConstraintNameTaken (p : QuadraticProgram) (s : String) : Bool :=
  p.quadratic_constraints.any (fun c => c.name = s)

/-- `QuadraticProgram.linear_constraint`: duplicate explicit names raise; a
missing name is auto-generated as `c{k}` starting from the constraint count.
Expression construction prunes zero coefficients (sparse storage). -/
def linear_constraint (p : QuadraticProgram) (linear : LinCoeffs)
    (sense : ConstraintSense) (rhs : ℚ) (name : Option String) :
    Except QError QuadraticProgram :=
  match name with
  | some s =>
    if s = "" then
      let k := findFreeNum p.constraintNameTaken "c" p.linear_constraints.length
        (p.linear_constraints.length + 1)
      Except.ok { p with linear_constraints :=
        p.linear_constraints ++ [⟨"c" ++ natStr k, pruneZeros linear, sense, rhs⟩] }
    else if p.constraintNameTaken s then
      Except.error (QError.duplicateConstraintName s)
    else
      Except.ok { p with linear_constraints :=
        p.linear_constraints ++ [⟨s, pruneZeros linear, sense, rhs⟩] }
  | none =>
    let k := findFreeNum p.constraintNameTaken "c" p.linear_constraints.length
      (p.linear_constraints.length + 1)
    Except.ok { p with linear_constraints :=
      p.linear_constraints ++ [⟨"c" ++ natStr k, pruneZeros linear, sense, rhs⟩] }

/-- `QuadraticProgram.quadratic_constraint` (auto-names use prefix `q`). -/
def quadratic_constraint (p : QuadraticProgram) (linear : LinCoeffs) (quadratic : QuadCoeffs)
    (sense : ConstraintSense) (rhs : ℚ) (name : Option String) :
    Except QError QuadraticProgram :=
  match name with
  | some s =>
    if s = "" then
      let k := findFreeNum p.quadConstraintNameTaken "q" p.quadratic_constraints.length
        (p.quadratic_constraints.length + 1)
      Except.ok { p with quadratic_constraints :=
        p.quadratic_constraints ++ [⟨"q" ++ natStr k, pruneZeros linear, pruneZeros quadratic, sense, rhs⟩] }
    else if p.quadConstraintNameTaken s then
      Except.error (QError.duplicateConstraintName s)
    else
      Except.ok { p with quadratic_constraints :=
        p.quadratic_constraints ++ [⟨s, pruneZeros linear, pruneZeros quadratic, sense, rhs⟩] }
  | none =>
    let k := findFreeNum p.quadConstraintNameTaken "q" p.quadratic_constraints.length
      (p.quadratic_constraints.length + 1)
    Except.ok { p with quadratic_constraints :=
      p.quadratic_constraints ++ [⟨"q" ++ natStr k, pruneZeros linear, pruneZeros quadratic, sense, rhs⟩] }

/-- `QuadraticProgram.minimize`: wholesale replacement of the objective. -/
def minimize (p : QuadraticProgram) (constant : ℚ) (linear : LinCoeffs)
    (quadratic : QuadCoeffs) : QuadraticProgram :=
  { p with objective := ⟨constant, pruneZeros linear, pruneZeros quadratic, ObjSense.minimize⟩ }

/-- `QuadraticProgram.maximize`. -/
def maximize (p : QuadraticProgram) (constant : ℚ) (linear : LinCoeffs)
    (quadratic : QuadCoeffs) : QuadraticProgram :=
  { p with objective := ⟨constant, pruneZeros linear, pruneZeros quadratic, ObjSense.maximize⟩ }

end QuadraticProgram

/-- Modelled from the spec: evaluation of an objective (the quadratic form
`constant + c·x + x^T Q x` where each stored pairing contributes once, per the
data-model section; `quadratic_objective.py` is not among the embedded
sources). -/
def evalObjective (obj : QuadraticObjective) (x : String → ℚ) : ℚ :=
  obj.constant + (obj.linear.map (fun kv => kv.2 * x kv.1)).sum
    + (obj.quadratic.map (fun kv => kv.2 * x kv.1.1 * x kv.1.2)).sum

/-! ### The variable-substitution engine

Embedding of the `SubstituteVariables` class of `quadratic_program.py`
(`substitute_variables`, `_subs_dict`, `_variables`, `_linear_expression`,
`_quadratic_expression`, `_objective`, `_linear_constraints`,
`_quadratic_constraints`). -/

inductive SubstitutionStatus
  | success
  | infeasible
deriving DecidableEq, Repr

namespace SubstituteVariables

/-- The `CONST = '__CONSTANT__'` sentinel used for constant substitutions. -/
def CONST : String := "__CONSTANT__"

/-- The substitution dictionary built by `_subs_dict`: insertion-ordered
`name -> (target name or CONST, coefficient)`. -/
abbrev Subs := List (String × String × ℚ)

def hasKey (subs : Subs) (s : String) : Bool := subs.any (fun kv => kv.1 = s)

/-- `self._subs[i] if i in self._subs else (i, 1)`. -/
def subsGet (subs : Subs) (i : String) : String × ℚ :=
  match subs.find? (fun kv => kv.1 = i) with
  | some kv => kv.2
  | none => (i, 1)

/-- The `constants` half of `_subs_dict`. -/
def subsDictConst (src : QuadraticProgram) : Subs → List (String × ℚ) → Except QError Subs
  | subs, [] => Except.ok subs
  | subs, (i, v) :: rest =>
    match src.findVar i with
    | none => Except.error (QError.keyError i)
    | some vi =>
      let i2 := vi.name
      if hasKey subs i2 then Except.error (QError.duplicateSubstitution i2)
      else subsDictConst src (subs ++ [(i2, CONST, v)]) rest

/-- The `variables` half of `_subs_dict` (`i <- j * v` entries).  Note the
order of the checks: zero coefficient, name lookups, self-substitution,
duplicate key, and only then the chained-substitution check against the keys
registered so far. -/
def subsDictVars (src : QuadraticProgram) : Subs → List (String × String × ℚ) → Except QError Subs
  | subs, [] => Except.ok subs
  | subs, (i, j, v) :: rest =>
    if v = 0 then Except.error (QError.zeroCoefficient i)
    else
      match src.findVar i with
      | none => Except.error (QError.keyError i)
      | some vi =>
        match src.findVar j with
        | none => Except.error (QError.keyError j)
        | some vj =>
          let i2 := vi.name
          let j2 := vj.name
          if i2 = j2 then Except.error (QError.selfSubstitution i2)
          else if hasKey subs i2 then Except.error (QError.duplicateSubstitution i2)
          else if hasKey subs j2 then Except.error (QError.chainedSubstitution j2)
          else subsDictVars src (subs ++ [(i2, j2, v)]) rest

/-- `SubstituteVariables._subs_dict`. -/
def subsDict (src : QuadraticProgram) (constants : List (String × ℚ))
    (varSubs : List (String × String × ℚ)) : Except QError Subs := do
  let s1 ← subsDictConst src [] constants
  subsDictVars src s1 varSubs

/-- First loop of `_variables`: copy every variable that is not substituted. -/
def copyVars (subs : Subs) : QuadraticProgram → List Variable → Except QError QuadraticProgram
  | dst, [] => Except.ok dst
  | dst, v :: rest =>
    if hasKey subs v.name then copyVars subs dst rest
    else do
      let dst' ← dst.add_variable (some v.name) v.lowerbound v.upperbound v.vartype
      copyVars subs dst' rest

/-- In-place bound update of the (unique) destination variable named `n`. -/
def setVarBounds (p : QuadraticProgram) (n : String) (lb ub : ℚ) : QuadraticProgram :=
  { p with vars := p.vars.map (fun v => if v.name = n then ⟨v.name, lb, ub, v.vartype⟩ else v) }

/-- Second loop of `_variables`: constant substitutions are range-checked
(an infeasible one returns `infeasible` immediately, skipping everything
after it), and variable substitutions tighten the target's bounds in the
destination program in place. -/
def subsBoundsLoop (src : QuadraticProgram) :
    QuadraticProgram → Subs → Except QError (QuadraticProgram × SubstitutionStatus)
  | dst, [] => Except.ok (dst, SubstitutionStatus.success)
  | dst, (i, j, v) :: rest =>
    match src.findVar i with
    | none => Except.error (QError.keyError i)
    | some vi =>
      let lb_i := vi.lowerbound
      let ub_i := vi.upperbound
      if j = CONST then
        if lb_i ≤ v ∧ v ≤ ub_i then subsBoundsLoop src dst rest
        else Except.ok (dst, SubstitutionStatus.infeasible)
      else if v = 0 then Except.error (QError.zeroCoefficient i)
      else
        let new_lb_i := if |lb_i| < infinity then lb_i / v else if v > 0 then lb_i else -lb_i
        let new_ub_i := if |ub_i| < infinity then ub_i / v else if v > 0 then ub_i else -ub_i
        match dst.findVar j with
        | none => Except.error (QError.keyError j)
        | some vj =>
          let lb_j := vj.lowerbound
          let ub_j := vj.upperbound
          let dst' :=
            if v > 0 then setVarBounds dst j (max lb_j new_lb_i) (min ub_j new_ub_i)
            else setVarBounds dst j (max lb_j new_ub_i) (min ub_j new_lb_i)
          subsBoundsLoop src dst' rest

/-- `SubstituteVariables._variables`. -/
def passVariables (src : QuadraticProgram) (subs : Subs) (dst : QuadraticProgram) :
    Except QError (QuadraticProgram × SubstitutionStatus) := do
  let dst1 ← copyVars subs dst src.vars
  let (dst2, st) ← subsBoundsLoop src dst1 subs
  match st with
  | SubstitutionStatus.infeasible => Except.ok (dst2, SubstitutionStatus.infeasible)
  | SubstitutionStatus.success =>
    if dst2.vars.any (fun v => decide (v.upperbound < v.lowerbound)) then
      Except.ok (dst2, SubstitutionStatus.infeasible)
    else
      Except.ok (dst2, SubstitutionStatus.success)

/-- `SubstituteVariables._linear_expression`: returns the collected constant
contributions (in order) and the rewritten linear dict; the resulting
`LinearExpression` is built sparsely (zeros pruned). -/
def linearExpressionSub (subs : Subs) (lin : LinCoeffs) : List ℚ × LinCoeffs :=
  let step := fun (acc : List ℚ × LinCoeffs) (kv : String × ℚ) =>
    let repl := subsGet subs kv.1
    let prod := kv.2 * repl.2
    if repl.1 = CONST then (acc.1 ++ [prod], acc.2)
    else (acc.1, upsert acc.2 repl.1 prod)
  let r := lin.foldl step ([], [])
  (r.1, pruneZeros r.2)

/-- `SubstituteVariables._quadratic_expression`. -/
def quadraticExpressionSub (subs : Subs) (quad : QuadCoeffs) :
    List ℚ × LinCoeffs × QuadCoeffs :=
  let step := fun (acc : List ℚ × LinCoeffs × QuadCoeffs) (kv : (String × String) × ℚ) =>
    let repl_i := subsGet subs kv.1.1
    let repl_j := subsGet subs kv.1.2
    let idx := ([repl_i.1, repl_j.1]).filter (fun s => s ≠ CONST)
    let prod := kv.2 * repl_i.2 * repl_j.2
    match idx with
    | [a, b] => (acc.1, acc.2.1, upsert acc.2.2 (a, b) prod)
    | [a] => (acc.1, upsert acc.2.1 a prod, acc.2.2)
    | _ => (acc.1 ++ [prod], acc.2.1, acc.2.2)
  let r := quad.foldl step ([], [], [])
  (r.1, pruneZeros r.2.1, pruneZeros r.2.2)

/-- `SubstituteVariables._objective` (always returns success). -/
def passObjective (src : QuadraticProgram) (subs : Subs) (dst : QuadraticProgram) :
    QuadraticProgram × SubstitutionStatus :=
  let r1 := linearExpressionSub subs src.objective.linear
  let r2 := quadraticExpressionSub subs src.objective.quadratic
  let constant := (src.objective.constant :: (r1.1 ++ r2.1)).sum
  let linear := accumInto r1.2 r2.2.1
  let dst' :=
    match src.objective.sense with
    | ObjSense.minimize => dst.minimize constant linear r2.2.2
    | ObjSense.maximize => dst.maximize constant linear r2.2.2
  (dst', SubstitutionStatus.success)

/-- `SubstituteVariables._feasible`: feasibility of `0 sense rhs`. -/
def feasibleRhs : ConstraintSense → ℚ → Bool
  | ConstraintSense.eq, rhs => decide ((0 : ℚ) = rhs)
  | ConstraintSense.le, rhs => decide ((0 : ℚ) ≤ rhs)
  | ConstraintSense.ge, rhs => decide ((0 : ℚ) ≥ rhs)

/-- `SubstituteVariables._linear_constraints`. -/
def passLinear (src : QuadraticProgram) (subs : Subs) :
    QuadraticProgram → List LinearConstraint → Except QError (QuadraticProgram × SubstitutionStatus)
  | dst, [] => Except.ok (dst, SubstitutionStatus.success)
  | dst, c :: rest =>
    let r := linearExpressionSub subs c.linear
    let rhs := -(((-c.rhs) :: r.1).sum)
    if r.2 ≠ [] then do
      let dst' ← dst.linear_constraint r.2 c.sense rhs (some c.name)
      passLinear src subs dst' rest
    else if feasibleRhs c.sense rhs then passLinear src subs dst rest
    else Except.ok (dst, SubstitutionStatus.infeasible)

/-- The `while name in lin_names: name = '_' + name` escape loop of
`_quadratic_constraints` (fuel-based; the candidates are pairwise distinct,
so the fuel used by the caller always suffices). -/
def escapeName (taken : String → Bool) : String → Nat → String
  | n, 0 => n
  | n, fuel + 1 => if taken n then escapeName taken ("_" ++ n) fuel else n

/-- `SubstituteVariables._quadratic_constraints`. -/
def passQuadratic (src : QuadraticProgram) (subs : Subs) :
    QuadraticProgram → List QuadraticConstraint →
    Except QError (QuadraticProgram × SubstitutionStatus)
  | dst, [] => Except.ok (dst, SubstitutionStatus.success)
  | dst, c :: rest =>
    let r1 := linearExpressionSub subs c.linear
    let r2 := quadraticExpressionSub subs c.quadratic
    let rhs := -(((-c.rhs) :: (r1.1 ++ r2.1)).sum)
    let linear := accumInto r1.2 r2.2.1
    if r2.2.2 ≠ [] then do
      let dst' ← dst.quadratic_constraint linear r2.2.2 c.sense rhs (some c.name)
      passQuadratic src subs dst' rest
    else if pruneZeros linear ≠ [] then do
      let name := escapeName dst.constraintNameTaken c.name (dst.linear_constraints.length + 1)
      let dst' ← dst.linear_constraint linear c.sense rhs (some name)
      passQuadratic src subs dst' rest
    else if feasibleRhs c.sense rhs then passQuadratic src subs dst rest
    else Except.ok (dst, SubstitutionStatus.infeasible)

/-- `SubstituteVariables.substitute_variables` (also the public
`QuadraticProgram.substitute_variables`): builds the substitution dictionary,
runs the four passes over a fresh destination program carrying its state
through all of them, and returns the destination together with the combined
status.  The destination is returned as constructed even when some pass
reported `infeasible`. -/
def substitute_variables (src : QuadraticProgram) (constants : List (String × ℚ))
    (varSubs : List (String × String × ℚ)) :
    Except QError (QuadraticProgram × SubstitutionStatus) := do
  let subs ← subsDict src constants varSubs
  let dst0 := QuadraticProgram.empty src.name
  let (dst1, r1) ← passVariables src subs dst0
  let (dst2, r2) := passObjective src subs dst1
  let (dst3, r3) ← passLinear src subs dst2 src.linear_constraints
  let (dst4, r4) ← passQuadratic src subs dst3 src.quadratic_constraints
  if r1 = SubstitutionStatus.infeasible ∨ r2 = SubstitutionStatus.infeasible
      ∨ r3 = SubstitutionStatus.infeasible ∨ r4 = SubstitutionStatus.infeasible then
    Except.ok (dst4, SubstitutionStatus.infeasible)
  else
    Except.ok (dst4, SubstitutionStatus.success)

/-- The best-effort destination program: the same four passes threaded over
the fresh destination, with the statuses they report discarded.  The value
`substitute_variables` returns alongside its status is exactly this
construction — not an empty sentinel program. -/
def bestEffort (src : QuadraticProgram) (constants : List (String × ℚ))
    (varSubs : List (String × String × ℚ)) : Except QError QuadraticProgram := do
  let subs ← subsDict src constants varSubs
  let (dst1, _) ← passVariables src subs (QuadraticProgram.empty src.name)
  let (dst2, _) := passObjective src subs dst1
  let (dst3, _) ← passLinear src subs dst2 src.linear_constraints
  let (dst4, _) ← passQuadratic src subs dst3 src.quadratic_constraints
  Except.ok dst4

end SubstituteVariables

/-! ### The Ising-to-quadratic-program converter

Embedding of `ising_to_quadratic_program.py`.  A Pauli term is given by its
`z` and `x` component bit lists and the real part of its coefficient; the
input operator is the list of Pauli terms of the (summed) qubit operator.
The running QUBO matrix is modelled as a total function `Nat → Nat → ℚ`
initialised to zero. -/

structure PauliTerm where
  z : List Bool
  x : List Bool
  coeff : ℚ
deriving DecidableEq, Repr

namespace IsingToQuadraticProgram

/-- Indices at which the bit list is `True` (Python's
`[i for i, z in enumerate(lst) if z is True]`). -/
def trueIndices (l : List Bool) : List Nat :=
  (l.enum.filter (fun p => p.2)).map (fun p => p.1)

/-- Single matrix-entry assignment `M[i, j] = v`. -/
def matSet (M : Nat → Nat → ℚ) (i j : Nat) (v : ℚ) : Nat → Nat → ℚ :=
  fun a b => if a = i ∧ b = j then v else M a b

/-- Dict assignment `d[k] = v` (overwrite, insertion order kept). -/
def dictSet {α : Type} [DecidableEq α] : List (α × ℚ) → α → ℚ → List (α × ℚ)
  | [], k, v => [(k, v)]
  | (k', v') :: rest, k, v =>
    if k' = k then (k', v) :: rest else (k', v') :: dictSet rest k v

/-- Per-term step of `_create_qubo_matrix`: one or two Pauli Zs set a matrix
entry, any other Z count raises, and afterwards any Pauli X raises. -/
def createQuboStep (M : Nat → Nat → ℚ) (t : PauliTerm) : Except QError (Nat → Nat → ℚ) := do
  let M' ←
    match trueIndices t.z with
    | [i] => Except.ok (matSet M i i t.coeff)
    | [i, j] => Except.ok (matSet M i j t.coeff)
    | _ => Except.error QError.tooManyPauliZs
  if trueIndices t.x ≠ [] then Except.error QError.pauliXExists
  else Except.ok M'

/-- `IsingToQuadraticProgram._create_qubo_matrix`. -/
def createQuboMatrix (terms : List PauliTerm) : Except QError (Nat → Nat → ℚ) :=
  terms.foldlM createQuboStep (fun _ _ => 0)

/-- State threaded through the two conversion loops of `convert`. -/
structure ConvState where
  mat : Nat → Nat → ℚ
  linear_terms : List (Nat × ℚ)
  quadratic_terms : List ((Nat × Nat) × ℚ)
  offset : ℚ

/-- The first (strictly upper-triangular) loop of `convert`:
`x_i x_j = (1 - Z_i - Z_j + Z_i Z_j)/4`. -/
def quadLoopStep (st : ConvState) (ij : Nat × Nat) : ConvState :=
  let w := st.mat ij.1 ij.2
  let qt := dictSet st.quadratic_terms ij (w * 4)
  let m1 := matSet st.mat ij.1 ij.2 (st.mat ij.1 ij.2 - w)
  let m2 := matSet m1 ij.1 ij.1 (m1 ij.1 ij.1 + w)
  let m3 := matSet m2 ij.2 ij.2 (m2 ij.2 ij.2 + w)
  ⟨m3, st.linear_terms, qt, st.offset - w⟩

/-- The second (diagonal) loop of `convert`: `x_i = (1 - Z_i)/2`; the `linear`
mode flag stores the 1-local contribution either as a linear term or as a
diagonal quadratic term. -/
def linLoopStep (linear : Bool) (st : ConvState) (i : Nat) : ConvState :=
  let w := st.mat i i
  let coef := w * 2
  let lt := if linear then dictSet st.linear_terms i (-coef) else st.linear_terms
  let qt := if linear then st.quadratic_terms else dictSet st.quadratic_terms (i, i) (-coef)
  let m1 := matSet st.mat i i (st.mat i i - w)
  ⟨m1, lt, qt, st.offset + w⟩

/-- The strictly-upper-triangular index pairs in loop order. -/
def upperPairs (n : Nat) : List (Nat × Nat) :=
  (List.range n).flatMap (fun i => ((List.range n).filter (fun j => i < j)).map (fun j => (i, j)))

/-- Variable name used by `convert` for qubit `i` (`'x_{0}'.format(i)`). -/
def qubitVarName (i : Nat) : String := "x_" ++ natStr i

/-- `IsingToQuadraticProgram.convert` on an operator given as a list of Pauli
terms with `num_qubits` qubits.  Creates one binary variable per qubit, builds
the QUBO matrix, runs the two expansion loops, and sets a minimized objective. -/
def convert (linear : Bool) (num_qubits : Nat) (terms : List PauliTerm) (offset : ℚ)
    (name : String) : Except QError QuadraticProgram := do
  let qp0 ← (List.range num_qubits).foldlM
    (fun (p : QuadraticProgram) i => p.binary_var (some (qubitVarName i)))
    (QuadraticProgram.empty name)
  let M ← createQuboMatrix terms
  let st1 := (upperPairs num_qubits).foldl quadLoopStep ⟨M, [], [], offset⟩
  let st2 := (List.range num_qubits).foldl (linLoopStep linear) st1
  let lin := st2.linear_terms.map (fun kv => (qubitVarName kv.1, kv.2))
  let quad := st2.quadratic_terms.map (fun kv => ((qubitVarName kv.1.1, qubitVarName kv.1.2), kv.2))
  Except.ok (qp0.minimize st2.offset lin quad)

/-- Direct evaluation of a diagonal (Z-only) operator at a computational-basis
state given by the binary assignment `b` of each qubit: each term contributes
`coeff * prod over its Z qubits of (1 - 2 b_i)`. -/
def isingEval (terms : List PauliTerm) (b : Nat → ℚ) : ℚ :=
  (terms.map (fun t => t.coeff * ((trueIndices t.z).map (fun i => 1 - 2 * b i)).prod)).sum

end IsingToQuadraticProgram

/-! ### The quadratic-program-to-QUBO pipeline

`quadratic_program_to_qubo.py` is among the embedded sources and its
compatibility check is embedded from the code.  The three stage converters it
drives (`InequalityToEquality`, `IntegerToBinary`,
`LinearEqualityToPenalty`) live in modules that are not among the embedded
sources, so they are modelled from the spec (section 4.4). -/

/-- `QuadraticProgramToQubo.get_compatibility_msg`: continuous variables and
quadratic constraints are incompatible, and non-integer constraint
coefficients are incompatible with integer slack conversion.  Python's
`coef.is_integer()` on a float is modelled as the rational having
denominator 1. -/
def get_compatibility_msg (p : QuadraticProgram) : String :=
  let m1 :=
    if p.get_num_continuous_vars > 0 then "Continuous variables are not supported! " else ""
  let m2 :=
    if p.quadratic_constraints.length > 0 then "Quadratic constraints are not supported. " else ""
  let nonIntLin := p.linear_constraints.any (fun c => c.linear.any (fun kv => kv.2.den ≠ 1))
  let nonIntQuad := p.quadratic_constraints.any (fun c =>
    c.quadratic.any (fun kv => kv.2.den ≠ 1) || c.linear.any (fun kv => kv.2.den ≠ 1))
  let m3 :=
    if nonIntLin || nonIntQuad then
      "Can not convert inequality constraints to equality constraint because float coefficients are in constraints. "
    else ""
  m1 ++ (m2 ++ m3)

def is_compatible (p : QuadraticProgram) : Bool := get_compatibility_msg p = ""

namespace InequalityToEquality

/-- Modelled from the spec: minimum of `a · x` over the box given by the
variable bounds (used to bound the slack variable of an inequality
constraint); the converter module itself is not among the embedded sources. -/
def linLowerBound (p : QuadraticProgram) (lin : LinCoeffs) : ℚ :=
  (lin.map (fun kv =>
    match p.findVar kv.1 with
    | some v => if 0 ≤ kv.2 then kv.2 * v.lowerbound else kv.2 * v.upperbound
    | none => 0)).sum

/-- Modelled from the spec: maximum of `a · x` over the box given by the
variable bounds. -/
def linUpperBound (p : QuadraticProgram) (lin : LinCoeffs) : ℚ :=
  (lin.map (fun kv =>
    match p.findVar kv.1 with
    | some v => if 0 ≤ kv.2 then kv.2 * v.upperbound else kv.2 * v.lowerbound
    | none => 0)).sum

/-- The integer slack variables added for one constraint (none for an
equality). -/
def slackVarsFor (p : QuadraticProgram) (c : LinearConstraint) : List Variable :=
  match c.sense with
  | ConstraintSense.eq => []
  | ConstraintSense.le =>
    [⟨c.name ++ "@int_slack", 0, c.rhs - linLowerBound p c.linear, VarType.integer⟩]
  | ConstraintSense.ge =>
    [⟨c.name ++ "@int_slack", 0, linUpperBound p c.linear - c.rhs, VarType.integer⟩]

/-- The equality form of one constraint: `a·x + s = b` for `<=`, and
`a·x - s = b` for `>=`. -/
def equalized (c : LinearConstraint) : LinearConstraint :=
  match c.sense with
  | ConstraintSense.eq => c
  | ConstraintSense.le =>
    ⟨c.name, c.linear ++ [(c.name ++ "@int_slack", 1)], ConstraintSense.eq, c.rhs⟩
  | ConstraintSense.ge =>
    ⟨c.name, c.linear ++ [(c.name ++ "@int_slack", -1)], ConstraintSense.eq, c.rhs⟩

/-- Modelled from the spec: `InequalityToEquality.convert` with integer-mode
slacks — one bound-limited integer slack variable per inequality constraint,
every constraint becoming an equality; objective and quadratic constraints
are untouched (the converter module is not among the embedded sources). -/
def convert (p : QuadraticProgram) : QuadraticProgram :=
  { p with
    vars := p.vars ++ p.linear_constraints.flatMap (slackVarsFor p),
    linear_constraints := p.linear_constraints.map equalized }

end InequalityToEquality

namespace IntegerToBinary

/-- Modelled from the spec: the weights of the powers-of-two binary expansion
covering `[0, r]` — coefficients `1, 2, 4, ...` with a final partial weight
hitting the exact upper bound (the converter module is not among the embedded
sources). -/
def intBitWeights (r : ℚ) : List ℚ :=
  let rn := (⌊r⌋).toNat
  if rn = 0 then []
  else
    let n := Nat.log2 rn + 1
    (List.range (n - 1)).map (fun i => ((2 : ℚ) ^ i)) ++ [r - (2 ^ (n - 1) - 1)]

/-- The binary expansion `x = base + sum of weight_k * y_k` of one integer
variable; non-integer variables are left alone by the converter. -/
structure BinExp where
  base : ℚ
  terms : List (String × ℚ)
deriving DecidableEq, Repr

/-- Name of the `k`-th expansion binary of variable `x` (`x@k`). -/
def binVarName (x : String) (k : Nat) : String := x ++ "@" ++ natStr k

def expansionOfVar (v : Variable) : BinExp :=
  ⟨v.lowerbound,
    (intBitWeights (v.upperbound - v.lowerbound)).enum.map
      (fun kw => (binVarName v.name kw.1, kw.2))⟩

/-- The substitution table: every integer variable mapped to its expansion. -/
def expansions (p : QuadraticProgram) : List (String × BinExp) :=
  p.vars.filterMap (fun v =>
    if v.vartype = VarType.integer then some (v.name, expansionOfVar v) else none)

/-- Expansion lookup; a variable without an entry stands for itself. -/
def expOf (exps : List (String × BinExp)) (i : String) : BinExp :=
  match exps.find? (fun e => e.1 = i) with
  | some e => e.2
  | none => ⟨0, [(i, 1)]⟩

/-- Rewrite a linear expression under the expansion table, returning the
constant contribution and the new linear coefficients. -/
def binSubLin (exps : List (String × BinExp)) (lin : LinCoeffs) : ℚ × LinCoeffs :=
  lin.foldl (fun acc kv =>
    let e := expOf exps kv.1
    (acc.1 + kv.2 * e.base,
      e.terms.foldl (fun l st => upsert l st.1 (kv.2 * st.2)) acc.2)) (0, [])

/-- Rewrite a quadratic expression under the expansion table (products of the
two expansions, distributed into constant, linear and quadratic parts). -/
def binSubQuad (exps : List (String × BinExp)) (quad : QuadCoeffs) :
    ℚ × LinCoeffs × QuadCoeffs :=
  quad.foldl (fun acc kv =>
    let ei := expOf exps kv.1.1
    let ej := expOf exps kv.1.2
    let w := kv.2
    let c' := acc.1 + w * ei.base * ej.base
    let l1 := ej.terms.foldl (fun l st => upsert l st.1 (w * ei.base * st.2)) acc.2.1
    let l2 := ei.terms.foldl (fun l st => upsert l st.1 (w * ej.base * st.2)) l1
    let q' := ei.terms.foldl
      (fun q si => ej.terms.foldl (fun q2 sj => upsert q2 (si.1, sj.1) (w * si.2 * sj.2)) q)
      acc.2.2
    (c', l2, q')) (0, [], [])

/-- The variable list after conversion: integer variables replaced by their
expansion binaries, everything else kept in place. -/
def convertVars (p : QuadraticProgram) : List Variable :=
  p.vars.flatMap (fun v =>
    if v.vartype = VarType.integer then
      (intBitWeights (v.upperbound - v.lowerbound)).enum.map
        (fun kw => ⟨binVarName v.name kw.1, 0, 1, VarType.binary⟩)
    else [v])

/-- Modelled from the spec: `IntegerToBinary.convert` — every integer variable
is replaced by a powers-of-two binary expansion and all expressions are
rewritten by substituting the weighted sum of the new binaries (the converter
module is not among the embedded sources). -/
def convert (p : QuadraticProgram) : QuadraticProgram :=
  let exps := expansions p
  let ro1 := binSubLin exps p.objective.linear
  let ro2 := binSubQuad exps p.objective.quadratic
  { name := p.name
    vars := convertVars p
    linear_constraints := p.linear_constraints.map (fun c =>
      let r := binSubLin exps c.linear
      ⟨c.name, pruneZeros r.2, c.sense, c.rhs - r.1⟩)
    quadratic_constraints := p.quadratic_constraints.map (fun c =>
      let r1 := binSubLin exps c.linear
      let r2 := binSubQuad exps c.quadratic
      ⟨c.name, pruneZeros (accumInto r1.2 r2.2.1), pruneZeros r2.2.2, c.sense,
        c.rhs - r1.1 - r2.1⟩)
    objective :=
      ⟨p.objective.constant + ro1.1 + ro2.1,
        pruneZeros (accumInto ro1.2 ro2.2.1), pruneZeros ro2.2.2, p.objective.sense⟩ }

end IntegerToBinary

namespace LinearEqualityToPenalty

/-- The penalty expansion of one equality constraint `a·x = b`:
`penalty * (a·x - b)^2` distributed into constant, linear and quadratic
contributions. -/
def penaltyTerms (penalty : ℚ) (c : LinearConstraint) : ℚ × LinCoeffs × QuadCoeffs :=
  let constant := penalty * c.rhs * c.rhs
  let lin := c.linear.map (fun kv => (kv.1, -2 * penalty * c.rhs * kv.2))
  let quad := c.linear.foldl (fun q ki =>
    c.linear.foldl (fun q2 kj => upsert q2 (ki.1, kj.1) (penalty * ki.2 * kj.2)) q) []
  (constant, lin, quad)

/-- Modelled from the spec: `LinearEqualityToPenalty.convert` — every linear
equality constraint is removed and `penalty * (a·x - b)^2` is added to the
objective; a remaining inequality constraint is outside the converter's input
class and raises (the converter module is not among the embedded sources). -/
def convert (p : QuadraticProgram) (penalty : ℚ) : Except QError QuadraticProgram :=
  if p.linear_constraints.any (fun c => c.sense ≠ ConstraintSense.eq) then
    Except.error (QError.unsupportedConstraint "An inequality constraint exists. The method supports only equality constraints.")
  else
    let sgn : ℚ := if p.objective.sense = ObjSense.minimize then 1 else -1
    let parts := p.linear_constraints.map (penaltyTerms penalty)
    let constant := p.objective.constant + sgn * (parts.map (fun t => t.1)).sum
    let lin := parts.foldl (fun l t =>
      t.2.1.foldl (fun l2 kv => upsert l2 kv.1 (sgn * kv.2)) l) p.objective.linear
    let quad := parts.foldl (fun q t =>
      t.2.2.foldl (fun q2 kv => upsert q2 kv.1 (sgn * kv.2)) q) p.objective.quadratic
    Except.ok
      { name := p.name
        vars := p.vars
        linear_constraints := []
        quadratic_constraints := p.quadratic_constraints
        objective := ⟨constant, pruneZeros lin, pruneZeros quad, p.objective.sense⟩ }

end LinearEqualityToPenalty

namespace QuadraticProgramToQubo

/-- `QuadraticProgramToQubo.convert`: check compatibility, then run
inequality-to-equality, integer-to-binary and linear-equality-to-penalty in
this fixed order; the penalty defaults to `1e5`. -/
def convert (penalty : Option ℚ) (p : QuadraticProgram) : Except QError QuadraticProgram := do
  let msg := get_compatibility_msg p
  if msg ≠ "" then Except.error (QError.incompatibleProblem msg)
  else
    let p1 := InequalityToEquality.convert p
    let p2 := IntegerToBinary.convert p1
    LinearEqualityToPenalty.convert p2 (penalty.getD 100000)

end QuadraticProgramToQubo

/-! ### Operator algebra: circuit nodes materialized to matrices

Embedding of `OpCircuit.kron` and `to_matrix` (`op_circuit.py`) for
single-qubit operands.  A single-qubit instruction is a sequence of gates,
each given by its 2x2 matrix; a two-qubit instruction is a sequence of gates
each placed on the low qubit (qubit 0) or the high qubit (qubit 1).  The
backend executor (`to_matrix` runs the circuit on the unitary simulator) is
an external collaborator; its documented semantics — gates apply in circuit
order, and qubit 0 is the least-significant index bit, so a gate on qubit 1
acts on the first factor of the index pair (the repository's own state
construction tests pin this convention) — is embedded directly. -/

namespace OperatorMatrix

open Kronecker

abbrev Mat2 := Matrix (Fin 2) (Fin 2) ℚ

abbrev Mat4 := Matrix (Fin 2 × Fin 2) (Fin 2 × Fin 2) ℚ

/-- A single-qubit instruction: its decomposition into single-qubit gates. -/
structure Instr1 where
  gates : List Mat2

/-- A two-qubit instruction: gates placed on the high (`true`) or low
(`false`) qubit. -/
structure InstrPair where
  gates : List (Mat2 × Bool)

/-- `OpCircuit` wrapping a one-qubit instruction with a coefficient. -/
structure OpCircuit1 where
  primitive : Instr1
  coeff : ℚ

/-- `OpCircuit` wrapping a two-qubit instruction with a coefficient. -/
structure OpCircuit2 where
  primitive : InstrPair
  coeff : ℚ

/-- Unitary of a one-qubit circuit: gates applied in circuit order. -/
def unitary1 (ins : Instr1) : Mat2 := ins.gates.foldl (fun U g => g * U) 1

/-- A placed gate as a two-qubit matrix: qubit 1 is the high (first) index
factor, qubit 0 the low (second) one. -/
def embedGate (gp : Mat2 × Bool) : Mat4 :=
  if gp.2 then Matrix.kroneckerMap (· * ·) gp.1 (1 : Mat2) else Matrix.kroneckerMap (· * ·) (1 : Mat2) gp.1

/-- Unitary of a two-qubit circuit. -/
def unitary2 (ins : InstrPair) : Mat4 := ins.gates.foldl (fun U gp => embedGate gp * U) 1

/-- `OpCircuit.to_matrix` for a one-qubit node (`unitary * self.coeff`). -/
def to_matrix1 (a : OpCircuit1) : Mat2 := a.coeff • unitary1 a.primitive

/-- `OpCircuit.to_matrix` for a two-qubit node. -/
def to_matrix2 (a : OpCircuit2) : Mat4 := a.coeff • unitary2 a.primitive

/-- `OpCircuit.kron` on single-qubit operands: the *other* operand's
instruction is appended on the low qubits `[0:other.num_qubits]` and `self`'s
on the high ones (the code's endianness reversal), with the coefficients
multiplied. -/
def kron (a b : OpCircuit1) : OpCircuit2 :=
  ⟨⟨b.primitive.gates.map (fun g => (g, false)) ++ a.primitive.gates.map (fun g => (g, true))⟩,
    a.coeff * b.coeff⟩

end OperatorMatrix

/-! ### Operator algebra: the add dispatch and the node structure

Embedding of `OpCircuit.add` (`op_circuit.py`) and `OpVec.add` / `OpVec.mul`
(`op_vec.py`).  Nodes carry a coefficient and either an instruction payload
(`OpCircuit`) or a list of children (`OpVec` and its `OpSum` subclass); an
instruction is abstracted to its qubit count and its definition list of
gates.  `num_qubits` of a list node is the sum over the children
(`OpVec.num_qubits`). -/

namespace OperatorNodes

inductive Gate
  | igate
  | gate (id : Nat)
deriving DecidableEq, Repr

structure Instruction where
  num_qubits : Nat
  gates : List Gate
deriving DecidableEq, Repr

inductive OpNode
  | circuit (primitive : Instruction) (coeff : ℚ)
  | vec (oplist : List OpNode) (coeff : ℚ)
  | opsum (oplist : List OpNode) (coeff : ℚ)

mutual

def num_qubits : OpNode → Nat
  | OpNode.circuit p _ => p.num_qubits
  | OpNode.vec l _ => num_qubits_list l
  | OpNode.opsum l _ => num_qubits_list l

def num_qubits_list : List OpNode → Nat
  | [] => 0
  | x :: xs => num_qubits x + num_qubits_list xs

end

mutual

/-- Python `==` on nodes (`equals`).  `OpCircuit.equals` compares the
primitive and the coefficient; `OpVec.equals` checks
`isinstance(other, type(self))` — so a plain `OpVec` accepts the `OpSum`
subclass on the right but not conversely — and compares the children lists,
ignoring the coefficients. -/
def nodeEq : OpNode → OpNode → Bool
  | OpNode.circuit p c, OpNode.circuit p2 c2 => p = p2 ∧ c = c2
  | OpNode.vec l _, OpNode.vec l2 _ => nodeEqList l l2
  | OpNode.vec l _, OpNode.opsum l2 _ => nodeEqList l l2
  | OpNode.opsum l _, OpNode.opsum l2 _ => nodeEqList l l2
  | _, _ => false

def nodeEqList : List OpNode → List OpNode → Bool
  | [], [] => true
  | x :: xs, y :: ys => nodeEq x y && nodeEqList xs ys
  | _, _ => false

end

/-- `OpCircuit.add`: a qubit-count mismatch raises `ValueError`; an equal
underlying primitive merges the coefficients into a single node; anything
else becomes `OpSum([self, other])`. -/
def opCircuitAdd (p : Instruction) (c : ℚ) (other : OpNode) : Except QError OpNode :=
  if p.num_qubits ≠ num_qubits other then
    Except.error (QError.dimensionMismatch p.num_qubits (num_qubits other))
  else
    match other with
    | OpNode.circuit p2 c2 =>
      if p = p2 then Except.ok (OpNode.circuit p (c + c2))
      else Except.ok (OpNode.opsum [OpNode.circuit p c, OpNode.circuit p2 c2] 1)
    | _ => Except.ok (OpNode.opsum [OpNode.circuit p c, other] 1)

/-- `OpVec.mul`: a new node sharing the children, with the coefficient
multiplied. -/
def opVecMul (l : List OpNode) (c : ℚ) (scalar : ℚ) : OpNode := OpNode.vec l (c * scalar)

/-- `OpVec.add`: no qubit-count check at all — `self == other` returns
`self.mul(2.0)`, everything else returns `OpSum([self, other])`. -/
def opVecAdd (l : List OpNode) (c : ℚ) (other : OpNode) : OpNode :=
  if nodeEq (OpNode.vec l c) other then opVecMul l c 2
  else OpNode.opsum [OpNode.vec l c, other] 1

end OperatorNodes

/-! ### Operator algebra: the heap model and `reduce`

To talk about in-place mutation, circuit primitives live in a store (the
heap): a node holds the index of its instruction definition.  Algebraic
operations may append fresh definitions but are expected to leave existing
entries untouched; `OpCircuit.reduce` is modelled exactly as the source:
it deletes `IGate` entries from `self.primitive._definition` *in place*
(CPython list iteration skips the element following a deletion) and returns
`self`. -/

namespace MutableModel

inductive CGate
  | igate
  | gate (id : Nat)
deriving DecidableEq, Repr

structure Store where
  defs : List (List CGate)
deriving DecidableEq, Repr

/-- A circuit node: a reference into the store plus a coefficient. -/
structure CNode where
  primId : Nat
  coeff : ℚ
deriving DecidableEq, Repr

def defAt (s : Store) (i : Nat) : List CGate := s.defs.getD i []

/-- The `for i, inst_context in enumerate(definition): if IGate: del
definition[i]` loop: examine position `i`; deleting shifts the list so the
next examined element is the one after the deleted one's successor. -/
def reduceGo : Nat → List CGate → Nat → List CGate
  | 0, l, _ => l
  | fuel + 1, l, i =>
    if h : i < l.length then
      if l.get ⟨i, h⟩ = CGate.igate then reduceGo fuel (l.eraseIdx i) (i + 1)
      else reduceGo fuel l (i + 1)
    else l

def reduceDefinition (l : List CGate) : List CGate := reduceGo l.length l 0

/-- `OpPrimitive.mul`: new node, same primitive reference, store untouched. -/
def opMul (s : Store) (n : CNode) (k : ℚ) : Store × CNode :=
  (s, ⟨n.primId, n.coeff * k⟩)

/-- `OpCircuit.adjoint`: `self.primitive.inverse()` builds a fresh
instruction (modelled as the reversed gate list), appended to the store. -/
def opAdjoint (s : Store) (n : CNode) : Store × CNode :=
  (⟨s.defs ++ [(defAt s n.primId).reverse]⟩, ⟨s.defs.length, n.coeff⟩)

/-- `OpCircuit.kron`: a fresh composite instruction (other's gates on the low
qubits first), appended to the store; neither operand's definition changes. -/
def opKron (s : Store) (a b : CNode) : Store × CNode :=
  (⟨s.defs ++ [defAt s b.primId ++ defAt s a.primId]⟩, ⟨s.defs.length, a.coeff * b.coeff⟩)

/-- `OpCircuit.add`: equal primitives merge into a single node sharing the
left operand's primitive; otherwise a Sum combinator aliasing both children.
Either way the store is untouched. -/
def opAdd (s : Store) (a b : CNode) : Store × (CNode ⊕ CNode × CNode) :=
  if defAt s a.primId = defAt s b.primId then (s, Sum.inl ⟨a.primId, a.coeff + b.coeff⟩)
  else (s, Sum.inr (a, b))

/-- `OpCircuit.reduce`: deletes identity gates from the primitive's
definition in place and returns `self` — the store entry is overwritten and
the very same node is handed back. -/
def opReduce (s : Store) (n : CNode) : Store × CNode :=
  (⟨s.defs.set n.primId (reduceDefinition (defAt s n.primId))⟩, n)

end MutableModel

/-! ## Supporting lemmas -/

/-- Among `n + 1` consecutive candidate names only `n` can be taken by a list
of `n` names, so a free one exists. -/
theorem exists_free_name (names : List String) (pre : String) (k : Nat) :
    ∃ j, j < names.length + 1 ∧ ¬ (pre ++ natStr (k + j)) ∈ names := by
  by_contra hall
  push_neg at hall
  have hsub : (Finset.range (names.length + 1)).image (fun j => pre ++ natStr (k + j))
      ⊆ names.toFinset := by
    intro s hs
    simp only [Finset.mem_image, Finset.mem_range] at hs
    obtain ⟨j, hj, rfl⟩ := hs
    exact List.mem_toFinset.mpr (hall j hj)
  have hcard : names.length + 1 ≤ names.toFinset.card := by
    have h1 : ((Finset.range (names.length + 1)).image
        (fun j => pre ++ natStr (k + j))).card = names.length + 1 := by
      rw [Finset.card_image_of_injOn, Finset.card_range]
      intro a _ b _ hab
      have := append_natStr_inj pre hab
      omega
    calc names.length + 1 = _ := h1.symm
      _ ≤ names.toFinset.card := Finset.card_le_card hsub
  have := names.toFinset_card_le
  omega

/-- Correctness of the name-search loop: given that some candidate within the
fuel is free, the loop returns the least free index at or beyond `k`. -/
theorem findFreeNum_spec (taken : String → Bool) (pre : String) (fuel : Nat) :
    ∀ k, (∃ j, j < fuel ∧ taken (pre ++ natStr (k + j)) = false) →
      k ≤ QuadraticProgram.findFreeNum taken pre k fuel
      ∧ taken (pre ++ natStr (QuadraticProgram.findFreeNum taken pre k fuel)) = false
      ∧ ∀ j, k ≤ j → j < QuadraticProgram.findFreeNum taken pre k fuel →
          taken (pre ++ natStr j) = true := by
  induction fuel with
  | zero =>
    intro k h
    obtain ⟨j, hj, _⟩ := h
    omega
  | succ fuel ih =>
    intro k h
    rw [QuadraticProgram.findFreeNum]
    by_cases hk : taken (pre ++ natStr k) = true
    · rw [if_pos hk]
      have h' : ∃ j, j < fuel ∧ taken (pre ++ natStr (k + 1 + j)) = false := by
        obtain ⟨j, hj, hfree⟩ := h
        cases j with
        | zero =>
          rw [Nat.add_zero] at hfree
          exact absurd hk (by simp [hfree])
        | succ j' =>
          refine ⟨j', by omega, ?_⟩
          have : k + 1 + j' = k + (j' + 1) := by omega
          rw [this]
          exact hfree
      obtain ⟨h1, h2, h3⟩ := ih (k + 1) h'
      refine ⟨by omega, h2, ?_⟩
      intro j hkj hjr
      by_cases hj : j = k
      · rw [hj]; exact hk
      · exact h3 j (by omega) hjr
    · rw [if_neg hk]
      simp only [Bool.not_eq_true] at hk
      exact ⟨le_rfl, hk, fun j h1 h2 => absurd h2 (by omega)⟩

/-- `varNameTaken` is membership in the list of variable names. -/
theorem varNameTaken_iff (p : QuadraticProgram) (s : String) :
    p.varNameTaken s = true ↔ s ∈ p.vars.map (fun v => v.name) := by
  simp only [QuadraticProgram.varNameTaken, List.any_eq_true, List.mem_map,
    decide_eq_true_eq]

/-! ## Claim C9: variable naming -/

/-- A program holding a single variable named `a` (as built by
`continuous_var('a', 0, 1)`). -/
def exC9 : QuadraticProgram :=
  ⟨"", [⟨"a", 0, 1, VarType.continuous⟩], [], [], ⟨0, [], [], ObjSense.minimize⟩⟩

/-- C9, counterexample: on a program whose only variable is named `a`, the
auto-generated name is `x1` — although `x0` does not collide with any
existing name, so the *first* (smallest) unused integer would be 0.  The
search starts at the current variable count, not at zero. -/
theorem c9_counterexample :
    exC9.add_variable none 0 infinity VarType.continuous
      = Except.ok { exC9 with vars := exC9.vars ++ [⟨"x1", 0, infinity, VarType.continuous⟩] }
    ∧ exC9.varNameTaken "x0" = false ∧ ("x1" : String) ≠ "x0" := by
  refine ⟨rfl, by decide, by decide⟩

/-- C9, amended: adding a variable without an explicit name assigns `x{k}`
where `k` is the smallest integer *at or beyond the current variable count*
such that `x{k}` does not collide with an existing variable name; an explicit
colliding (nonempty) name fails with a duplicate-name error. -/
theorem c9_add_variable_naming :
    (∀ (p : QuadraticProgram) (lb ub : ℚ) (t : VarType), ∃ k,
      p.add_variable none lb ub t =
        Except.ok { p with vars := p.vars ++ [⟨"x" ++ natStr k, lb, ub, t⟩] }
      ∧ p.get_num_vars ≤ k
      ∧ p.varNameTaken ("x" ++ natStr k) = false
      ∧ (∀ j, p.get_num_vars ≤ j → j < k → p.varNameTaken ("x" ++ natStr j) = true))
    ∧ (∀ (p : QuadraticProgram) (s : String) (lb ub : ℚ) (t : VarType),
      s ≠ "" → p.varNameTaken s = true →
      p.add_variable (some s) lb ub t = Except.error (QError.duplicateVarName s)) := by
  constructor
  · intro p lb ub t
    refine ⟨QuadraticProgram.findFreeNum p.varNameTaken "x" p.get_num_vars (p.get_num_vars + 1),
      rfl, ?_⟩
    have hex : ∃ j, j < p.get_num_vars + 1
        ∧ p.varNameTaken ("x" ++ natStr (p.get_num_vars + j)) = false := by
      obtain ⟨j, hj, hnm⟩ := exists_free_name (p.vars.map (fun v => v.name)) "x" p.get_num_vars
      refine ⟨j, ?_, ?_⟩
      · simpa [QuadraticProgram.get_num_vars] using hj
      · have hnot : ¬ p.varNameTaken ("x" ++ natStr (p.get_num_vars + j)) = true :=
          fun hc => hnm ((varNameTaken_iff _ _).mp hc)
        simpa using hnot
    exact findFreeNum_spec p.varNameTaken "x" (p.get_num_vars + 1) p.get_num_vars hex
  · intro p s lb ub t hs htaken
    simp [QuadraticProgram.add_variable, hs, htaken]

/-- C9, witness: both halves of the amended statement applied to the concrete
one-variable program. -/
theorem c9_add_variable_naming_witness :
    (∃ k, exC9.add_variable none 0 1 VarType.binary =
        Except.ok { exC9 with vars := exC9.vars ++ [⟨"x" ++ natStr k, 0, 1, VarType.binary⟩] }
      ∧ exC9.get_num_vars ≤ k
      ∧ exC9.varNameTaken ("x" ++ natStr k) = false
      ∧ (∀ j, exC9.get_num_vars ≤ j → j < k → exC9.varNameTaken ("x" ++ natStr j) = true))
    ∧ exC9.add_variable (some "a") 0 1 VarType.continuous
      = Except.error (QError.duplicateVarName "a") :=
  ⟨c9_add_variable_naming.1 exC9 0 1 VarType.binary,
    c9_add_variable_naming.2 exC9 "a" 0 1 VarType.continuous (by decide) (by decide)⟩

/-! ## Claims C10 and C2: the Ising converter -/

theorem enumFrom_filter_eq_nil {l : List Bool} (h : ∀ b ∈ l, b = false) :
    ∀ n, (List.enumFrom n l).filter (fun p => p.2) = [] := by
  induction l with
  | nil => intro n; rfl
  | cons b t ih =>
    intro n
    have hb : b = false := h b (by simp)
    simp only [List.enumFrom, List.filter, hb]
    exact ih (fun x hx => h x (by simp [hx])) (n + 1)

/-- A Pauli term whose `z` components are all `False` has no Z indices. -/
theorem trueIndices_eq_nil {l : List Bool} (h : ∀ b ∈ l, b = false) :
    IsingToQuadraticProgram.trueIndices l = [] := by
  unfold IsingToQuadraticProgram.trueIndices List.enum
  rw [enumFrom_filter_eq_nil h 0]
  rfl

/-- A term with zero Pauli Zs falls into the `else` branch of
`_create_qubo_matrix` and raises. -/
theorem createQuboStep_identity_error (M : Nat → Nat → ℚ) (t : PauliTerm)
    (hz : ∀ b ∈ t.z, b = false) :
    IsingToQuadraticProgram.createQuboStep M t = Except.error QError.tooManyPauliZs := by
  unfold IsingToQuadraticProgram.createQuboStep
  rw [trueIndices_eq_nil hz]
  rfl

/-- `_create_qubo_matrix` fails on any operator containing an identity term. -/
theorem createQubo_error_of_identity_mem :
    ∀ (terms : List PauliTerm) (M : Nat → Nat → ℚ) (t : PauliTerm), t ∈ terms →
      (∀ b ∈ t.z, b = false) →
      ∃ e, terms.foldlM IsingToQuadraticProgram.createQuboStep M = Except.error e := by
  intro terms
  induction terms with
  | nil => intro M t ht _; simp at ht
  | cons a rest ih =>
    intro M t ht hz
    rw [List.foldlM_cons]
    rcases List.mem_cons.mp ht with h | h
    · rw [← h, createQuboStep_identity_error M t hz]
      exact ⟨QError.tooManyPauliZs, rfl⟩
    · cases hs : IsingToQuadraticProgram.createQuboStep M a with
      | error e => exact ⟨e, rfl⟩
      | ok M2 =>
        obtain ⟨e, he⟩ := ih M2 t h hz
        exact ⟨e, by simpa using he⟩

/-- C10: an operator containing a Pauli term with no Z and no X components (a
pure identity term) makes `IsingToQuadraticProgram.convert` raise an error —
the weight is never folded into the constant offset, although such a term
touches fewer than 3 qubits. -/
theorem c10_identity_term_raises (lin : Bool) (n : Nat) (terms : List PauliTerm)
    (off : ℚ) (nm : String) (t : PauliTerm) (ht : t ∈ terms)
    (hz : ∀ b ∈ t.z, b = false) (hx : ∀ b ∈ t.x, b = false) :
    ∃ e, IsingToQuadraticProgram.convert lin n terms off nm = Except.error e := by
  unfold IsingToQuadraticProgram.convert
  cases hA : (List.range n).foldlM
      (fun (p : QuadraticProgram) i => p.binary_var (some (IsingToQuadraticProgram.qubitVarName i)))
      (QuadraticProgram.empty nm) with
  | error e2 => exact ⟨e2, rfl⟩
  | ok qp0 =>
    obtain ⟨e, he⟩ :=
      createQubo_error_of_identity_mem terms (fun _ _ => 0) t ht hz
    refine ⟨e, ?_⟩
    have he2 : IsingToQuadraticProgram.createQuboMatrix terms = Except.error e := he
    simp only [he2]
    rfl

/-- C10, witness: the single identity term on two qubits with weight 3. -/
theorem c10_identity_term_raises_witness :
    ∃ e, IsingToQuadraticProgram.convert false 2 [⟨[false, false], [false, false], 3⟩] 0 ""
      = Except.error e :=
  c10_identity_term_raises false 2 [⟨[false, false], [false, false], 3⟩] 0 ""
    ⟨[false, false], [false, false], 3⟩ (by simp) (by decide) (by decide)

/-- The single 2-qubit Ising term `Z_0 Z_1` with weight 1. -/
def zzTerm : PauliTerm := ⟨[true, true], [false, false], 1⟩

/-- Binary assignment of the two converter variables `x_0`, `x_1`. -/
def asgn (a b : ℚ) : String → ℚ :=
  fun s => if s = "x_0" then a else if s = "x_1" then b else 0

/-- The corresponding assignment per qubit index. -/
def qasgn (a b : ℚ) : Nat → ℚ := fun i => if i = 0 then a else b

/-- The program produced by converting `Z_0 Z_1` with weight 1,
`linear=False` and offset 0: objective `1 + 4 x_0 x_1 - 2 x_0^2 - 2 x_1^2`. -/
def c2prog : QuadraticProgram :=
  ⟨"", [⟨"x_0", 0, 1, VarType.binary⟩, ⟨"x_1", 0, 1, VarType.binary⟩], [], [],
    ⟨1, [], [(("x_0", "x_1"), 4), (("x_0", "x_0"), -2), (("x_1", "x_1"), -2)],
      ObjSense.minimize⟩⟩

/-- C2: converting the single term `Z_0 Z_1` (weight 1, offset 0,
`linear=False`) yields a program whose objective evaluates to 1 at the
bitstrings 00 and 11 and to -1 at 01 and 10 — matching the direct evaluation
of the diagonal operator under `x = (1 - Z)/2` at each of the four
computational-basis states. -/
theorem c2_zz_objective_values :
    IsingToQuadraticProgram.convert false 2 [zzTerm] 0 "" = Except.ok c2prog
    ∧ evalObjective c2prog.objective (asgn 0 0) = 1
    ∧ evalObjective c2prog.objective (asgn 1 1) = 1
    ∧ evalObjective c2prog.objective (asgn 0 1) = -1
    ∧ evalObjective c2prog.objective (asgn 1 0) = -1
    ∧ IsingToQuadraticProgram.isingEval [zzTerm] (qasgn 0 0) = 1
    ∧ IsingToQuadraticProgram.isingEval [zzTerm] (qasgn 1 1) = 1
    ∧ IsingToQuadraticProgram.isingEval [zzTerm] (qasgn 0 1) = -1
    ∧ IsingToQuadraticProgram.isingEval [zzTerm] (qasgn 1 0) = -1 := by
  have h10 : (("x_1" : String) = "x_0") = False := eq_false (by decide)
  have h01 : (("x_0" : String) = "x_1") = False := eq_false (by decide)
  have ht : IsingToQuadraticProgram.trueIndices [true, true] = [0, 1] := rfl
  refine ⟨?_, ?_, ?_, ?_, ?_, ?_, ?_, ?_, ?_⟩
  · have hM : IsingToQuadraticProgram.createQuboMatrix [⟨[true, true], [false, false], 1⟩]
        = Except.ok (IsingToQuadraticProgram.matSet (fun _ _ => 0) 0 1 1) := rfl
    have hn0 : IsingToQuadraticProgram.qubitVarName 0 = "x_0" := rfl
    have hn1 : IsingToQuadraticProgram.qubitVarName 1 = "x_1" := rfl
    norm_num [IsingToQuadraticProgram.convert, hM, hn0, hn1, zzTerm,
      IsingToQuadraticProgram.matSet, IsingToQuadraticProgram.upperPairs, List.range_succ,
      IsingToQuadraticProgram.quadLoopStep, IsingToQuadraticProgram.linLoopStep,
      IsingToQuadraticProgram.dictSet, QuadraticProgram.minimize, pruneZeros,
      Bind.bind, Except.bind, c2prog]
    rfl
  all_goals
    norm_num [evalObjective, asgn, c2prog, h10, h01, IsingToQuadraticProgram.isingEval,
      zzTerm, ht, qasgn]

/-! ## Claim C3: the infeasible result is the best-effort partial program -/

/-- Source program for C3: `x` in [0,5], `y` in [0,1], objective `x + y`. -/
def c3src : QuadraticProgram :=
  ⟨"", [⟨"x", 0, 5, VarType.continuous⟩, ⟨"y", 0, 1, VarType.continuous⟩], [], [],
    ⟨0, [("x", 1), ("y", 1)], [], ObjSense.minimize⟩⟩

/-- Result of substituting `x <- 7` into `c3src`: `x` is dropped (its
substitution is infeasible) but `y` was copied and the objective was fully
substituted — a non-empty, best-effort partial program. -/
def c3dst : QuadraticProgram :=
  ⟨"", [⟨"y", 0, 1, VarType.continuous⟩], [], [], ⟨7, [("y", 1)], [], ObjSense.minimize⟩⟩

/-- C3: whatever status `substitute_variables` returns, the program returned
alongside it is the best-effort construction of the four substitution passes
(never an empty sentinel); concretely, substituting `x <- 7` with `x` bounded
by [0,5] returns status infeasible together with the partially constructed
program, which is not the empty program. -/
theorem c3_infeasible_returns_best_effort :
    (∀ (src : QuadraticProgram) (constants : List (String × ℚ))
        (varSubs : List (String × String × ℚ)) (p : QuadraticProgram)
        (st : SubstitutionStatus),
      SubstituteVariables.substitute_variables src constants varSubs = Except.ok (p, st) →
      SubstituteVariables.bestEffort src constants varSubs = Except.ok p)
    ∧ SubstituteVariables.substitute_variables c3src [("x", 7)] []
        = Except.ok (c3dst, SubstitutionStatus.infeasible)
    ∧ c3dst ≠ QuadraticProgram.empty "" := by
  refine ⟨?_, ?_, ?_⟩
  · intro src constants varSubs p st h
    unfold SubstituteVariables.substitute_variables at h
    unfold SubstituteVariables.bestEffort
    simp only [Bind.bind, Except.bind] at h ⊢
    cases hs : SubstituteVariables.subsDict src constants varSubs with
    | error e => rw [hs] at h; cases h
    | ok subs =>
      simp only [hs] at h
      simp only [hs]
      cases hv : SubstituteVariables.passVariables src subs (QuadraticProgram.empty src.name) with
      | error e => rw [hv] at h; cases h
      | ok pr1 =>
        obtain ⟨dst1, r1⟩ := pr1
        simp only [hv] at h
        simp only [hv]
        cases hl : SubstituteVariables.passLinear src subs
            (SubstituteVariables.passObjective src subs dst1).1 src.linear_constraints with
        | error e => rw [hl] at h; cases h
        | ok pr3 =>
          obtain ⟨dst3, r3⟩ := pr3
          simp only [hl] at h
          simp only [hl]
          cases hq : SubstituteVariables.passQuadratic src subs dst3
              src.quadratic_constraints with
          | error e => rw [hq] at h; cases h
          | ok pr4 =>
            obtain ⟨dst4, r4⟩ := pr4
            simp only [hq] at h
            simp only [hq]
            by_cases hst : r1 = SubstitutionStatus.infeasible
                ∨ (SubstituteVariables.passObjective src subs dst1).2 = SubstitutionStatus.infeasible
                ∨ r3 = SubstitutionStatus.infeasible ∨ r4 = SubstitutionStatus.infeasible
            · rw [if_pos hst] at h
              cases h
              rfl
            · rw [if_neg hst] at h
              cases h
              rfl
  · have hxy : (("x" : String) = "y") = False := eq_false (by decide)
    have hyx : (("y" : String) = "x") = False := eq_false (by decide)
    have hxc : (("x" : String) = SubstituteVariables.CONST) = False := eq_false (by decide)
    have hyc : (("y" : String) = SubstituteVariables.CONST) = False := eq_false (by decide)
    have hcx : ((SubstituteVariables.CONST : String) = "x") = False := eq_false (by decide)
    have hcy : ((SubstituteVariables.CONST : String) = "y") = False := eq_false (by decide)
    have hxe : (("x" : String) = "") = False := eq_false (by decide)
    have hye : (("y" : String) = "") = False := eq_false (by decide)
    norm_num [SubstituteVariables.substitute_variables, SubstituteVariables.subsDict,
      SubstituteVariables.subsDictConst, SubstituteVariables.subsDictVars,
      SubstituteVariables.hasKey, SubstituteVariables.subsGet,
      SubstituteVariables.passVariables, SubstituteVariables.copyVars,
      SubstituteVariables.subsBoundsLoop, SubstituteVariables.passObjective,
      SubstituteVariables.linearExpressionSub, SubstituteVariables.quadraticExpressionSub,
      upsert, pruneZeros, accumInto, SubstituteVariables.passLinear,
      SubstituteVariables.passQuadratic, QuadraticProgram.minimize,
      QuadraticProgram.add_variable, QuadraticProgram.varNameTaken, QuadraticProgram.findVar,
      QuadraticProgram.empty, c3src, c3dst, Bind.bind, Except.bind,
      hxy, hyx, hxc, hyc, hcx, hcy, hxe, hye]
  · intro h
    have := congrArg (fun q => q.vars.length) h
    simp [c3dst, QuadraticProgram.empty] at this

/-- C3, witness: the universal half applied at the concrete infeasible
substitution. -/
theorem c3_infeasible_returns_best_effort_witness :
    SubstituteVariables.bestEffort c3src [("x", 7)] [] = Except.ok c3dst :=
  c3_infeasible_returns_best_effort.1 c3src [("x", 7)] [] c3dst
    SubstitutionStatus.infeasible c3_infeasible_returns_best_effort.2.1

/-! ## Claim C4: empty substitution round-trip -/

/-- Canonical sparse-dict invariant: distinct keys, no stored zeros, and no
key equal to the reserved `__CONSTANT__` sentinel. -/
def linDictWF (l : LinCoeffs) : Prop :=
  (l.map Prod.fst).Nodup ∧ (∀ kv ∈ l, kv.2 ≠ 0)
  ∧ ∀ kv ∈ l, kv.1 ≠ SubstituteVariables.CONST

/-- Canonical sparse invariant for quadratic dicts. -/
def quadDictWF (l : QuadCoeffs) : Prop :=
  (l.map Prod.fst).Nodup ∧ (∀ kv ∈ l, kv.2 ≠ 0)
  ∧ ∀ kv ∈ l, kv.1.1 ≠ SubstituteVariables.CONST ∧ kv.1.2 ≠ SubstituteVariables.CONST

/-- The invariant every program built through the public API satisfies:
unique nonempty names, ordered bounds, and canonical sparse expressions with
nonempty constraint bodies. -/
def WellFormed (p : QuadraticProgram) : Prop :=
  (p.vars.map (fun v => v.name)).Nodup
  ∧ (∀ v ∈ p.vars, v.name ≠ "")
  ∧ (∀ v ∈ p.vars, v.lowerbound ≤ v.upperbound)
  ∧ linDictWF p.objective.linear
  ∧ quadDictWF p.objective.quadratic
  ∧ (p.linear_constraints.map (fun c => c.name)).Nodup
  ∧ (∀ c ∈ p.linear_constraints, c.name ≠ "" ∧ linDictWF c.linear ∧ c.linear ≠ [])
  ∧ (p.quadratic_constraints.map (fun c => c.name)).Nodup
  ∧ (∀ c ∈ p.quadratic_constraints,
      c.name ≠ "" ∧ linDictWF c.linear ∧ quadDictWF c.quadratic ∧ c.quadratic ≠ [])

theorem upsert_append {α : Type} [DecidableEq α] (acc : List (α × ℚ)) (k : α) (v : ℚ)
    (h : ¬ k ∈ acc.map Prod.fst) : upsert acc k v = acc ++ [(k, v)] := by
  induction acc with
  | nil => rfl
  | cons kv rest ih =>
    simp only [List.map_cons, List.mem_cons] at h
    push_neg at h
    rw [upsert, if_neg (fun he => h.1 he.symm), ih h.2]
    rfl

theorem pruneZeros_eq_self {α : Type} (l : List (α × ℚ)) (h : ∀ kv ∈ l, kv.2 ≠ 0) :
    pruneZeros l = l := by
  unfold pruneZeros
  rw [List.filter_eq_self]
  intro kv hkv
  simpa using h kv hkv

theorem accumInto_nil {α : Type} [DecidableEq α] (acc : List (α × ℚ)) :
    accumInto acc [] = acc := rfl

/-- With the empty substitution table, `_linear_expression` collects no
constants and reproduces the expression. -/
theorem linearExpressionSub_empty (l : LinCoeffs) (hwf : linDictWF l) :
    SubstituteVariables.linearExpressionSub [] l = ([], l) := by
  obtain ⟨hnodup, hnz, hnc⟩ := hwf
  have hgo : ∀ (l2 : LinCoeffs) (cs : List ℚ) (acc : LinCoeffs),
      (∀ kv ∈ l2, kv.1 ≠ SubstituteVariables.CONST) →
      (l2.map Prod.fst).Nodup →
      (∀ k ∈ l2.map Prod.fst, ¬ k ∈ acc.map Prod.fst) →
      l2.foldl (fun (a : List ℚ × LinCoeffs) kv =>
        let repl := SubstituteVariables.subsGet [] kv.1
        let prod := kv.2 * repl.2
        if repl.1 = SubstituteVariables.CONST then (a.1 ++ [prod], a.2)
        else (a.1, upsert a.2 repl.1 prod)) (cs, acc) = (cs, acc ++ l2) := by
    intro l2
    induction l2 with
    | nil => intro cs acc _ _ _; simp
    | cons kv rest ih =>
      intro cs acc hnc2 hnd2 hdisj
      have hkv : SubstituteVariables.subsGet [] kv.1 = (kv.1, 1) := rfl
      simp only [List.foldl_cons, hkv]
      rw [if_neg (hnc2 kv (by simp))]
      have hup : upsert acc kv.1 (kv.2 * 1) = acc ++ [(kv.1, kv.2)] := by
        rw [mul_one]
        exact upsert_append acc kv.1 kv.2 (hdisj kv.1 (by simp))
      rw [hup]
      have := ih cs (acc ++ [(kv.1, kv.2)])
        (fun kv2 h2 => hnc2 kv2 (by simp [h2]))
        (by simpa using hnd2.of_cons)
        ?_
      · simpa using this
      · intro k hk
        simp only [List.map_append, List.mem_append, List.map_cons] at *
        rintro (h1 | h2)
        · exact hdisj k (by simp [hk]) h1
        · simp only [List.map_nil, List.mem_singleton, List.map_cons] at h2
          have : kv.1 ∉ rest.map Prod.fst := by
            have := hnd2
            simp only [List.map_cons, List.nodup_cons] at this
            exact this.1
          rw [h2] at hk
          exact this hk
  have hmain := hgo l [] [] hnc hnodup (by simp)
  simp [SubstituteVariables.linearExpressionSub, hmain, pruneZeros_eq_self l hnz]

/-- With the empty substitution table, `_quadratic_expression` reproduces the
expression. -/
theorem quadraticExpressionSub_empty (q : QuadCoeffs) (hwf : quadDictWF q) :
    SubstituteVariables.quadraticExpressionSub [] q = ([], [], q) := by
  obtain ⟨hnodup, hnz, hnc⟩ := hwf
  have hgo : ∀ (l2 : QuadCoeffs) (cs : List ℚ) (lf : LinCoeffs) (acc : QuadCoeffs),
      (∀ kv ∈ l2, kv.1.1 ≠ SubstituteVariables.CONST ∧ kv.1.2 ≠ SubstituteVariables.CONST) →
      (l2.map Prod.fst).Nodup →
      (∀ k ∈ l2.map Prod.fst, ¬ k ∈ acc.map Prod.fst) →
      l2.foldl (fun (a : List ℚ × LinCoeffs × QuadCoeffs) kv =>
        let repl_i := SubstituteVariables.subsGet [] kv.1.1
        let repl_j := SubstituteVariables.subsGet [] kv.1.2
        let idx := ([repl_i.1, repl_j.1]).filter (fun s => s ≠ SubstituteVariables.CONST)
        let prod := kv.2 * repl_i.2 * repl_j.2
        match idx with
        | [a1, b1] => (a.1, a.2.1, upsert a.2.2 (a1, b1) prod)
        | [a1] => (a.1, upsert a.2.1 a1 prod, a.2.2)
        | _ => (a.1 ++ [prod], a.2.1, a.2.2)) (cs, lf, acc) = (cs, lf, acc ++ l2) := by
    intro l2
    induction l2 with
    | nil => intro cs lf acc _ _ _; simp
    | cons kv rest ih =>
      intro cs lf acc hnc2 hnd2 hdisj
      have hkv1 : SubstituteVariables.subsGet [] kv.1.1 = (kv.1.1, 1) := rfl
      have hkv2 : SubstituteVariables.subsGet [] kv.1.2 = (kv.1.2, 1) := rfl
      have hfil : ([kv.1.1, kv.1.2]).filter (fun s => s ≠ SubstituteVariables.CONST)
          = [kv.1.1, kv.1.2] := by
        rw [List.filter_eq_self]
        intro a ha
        rcases List.mem_cons.mp ha with h | h
        · subst h; simpa using (hnc2 kv (by simp)).1
        · simp only [List.mem_singleton] at h
          subst h; simpa using (hnc2 kv (by simp)).2
      simp only [List.foldl_cons, hkv1, hkv2, hfil]
      have hup : upsert acc (kv.1.1, kv.1.2) (kv.2 * 1 * 1) = acc ++ [kv] := by
        rw [mul_one, mul_one]
        have := upsert_append acc kv.1 kv.2 (hdisj kv.1 (by simp))
        simpa using this
      rw [hup]
      have := ih cs lf (acc ++ [kv])
        (fun kv2 h2 => hnc2 kv2 (by simp [h2]))
        (by simpa using hnd2.of_cons)
        ?_
      · simpa using this
      · intro k hk
        simp only [List.map_append, List.mem_append] at *
        rintro (h1 | h2)
        · exact hdisj k (by simp [hk]) h1
        · simp only [List.map_cons, List.map_nil, List.mem_singleton] at h2
          have : kv.1 ∉ rest.map Prod.fst := by
            have := hnd2
            simp only [List.map_cons, List.nodup_cons] at this
            exact this.1
          rw [h2] at hk
          exact this hk
  have hmain := hgo q [] [] [] hnc hnodup (by simp)
  simp only [SubstituteVariables.quadraticExpressionSub]
  rw [hmain]
  simp [pruneZeros_eq_self q hnz, pruneZeros]
  exact fun a b b1 h => hnz ((a, b), b1) h

/-- The first `_variables` loop copies every variable verbatim when nothing
is substituted. -/
theorem copyVars_empty (dst : QuadraticProgram) (l : List Variable)
    (hne : ∀ v ∈ l, v.name ≠ "")
    (hnd : ((dst.vars ++ l).map (fun v => v.name)).Nodup) :
    SubstituteVariables.copyVars [] dst l
      = Except.ok { dst with vars := dst.vars ++ l } := by
  induction l generalizing dst with
  | nil => simp [SubstituteVariables.copyVars]
  | cons v rest ih =>
    rw [SubstituteVariables.copyVars]
    have hkey : SubstituteVariables.hasKey [] v.name = false := rfl
    rw [hkey]
    have htaken : dst.varNameTaken v.name = false := by
      have hmem : ¬ v.name ∈ dst.vars.map (fun v => v.name) := by
        intro hm
        rw [List.map_append] at hnd
        have := (List.nodup_append.mp hnd).2.2
        exact this hm (by simp)
      have := mt (varNameTaken_iff dst v.name).mp hmem
      simpa using this
    have hadd : dst.add_variable (some v.name) v.lowerbound v.upperbound v.vartype
        = Except.ok { dst with vars := dst.vars ++ [v] } := by
      rw [QuadraticProgram.add_variable, if_neg (hne v (by simp)), if_neg (by simp [htaken])]
    simp only [Bool.false_eq_true, if_false, hadd, Bind.bind, Except.bind]
    have hih := ih { dst with vars := dst.vars ++ [v] }
      (fun w hw => hne w (by simp [hw])) (by simpa using hnd)
    rw [hih]
    simp

/-- `_variables` with the empty substitution dictionary: every variable is
copied and, when all source bounds are ordered, the pass succeeds. -/
theorem passVariables_empty (src : QuadraticProgram) (nm : String)
    (hne : ∀ v ∈ src.vars, v.name ≠ "")
    (hnd : (src.vars.map (fun v => v.name)).Nodup)
    (hb : ∀ v ∈ src.vars, v.lowerbound ≤ v.upperbound) :
    SubstituteVariables.passVariables src [] (QuadraticProgram.empty nm)
      = Except.ok ({ QuadraticProgram.empty nm with vars := src.vars },
          SubstitutionStatus.success) := by
  unfold SubstituteVariables.passVariables
  have hcopy := copyVars_empty (QuadraticProgram.empty nm) src.vars hne
    (by simpa [QuadraticProgram.empty] using hnd)
  simp only [hcopy, Bind.bind, Except.bind]
  have hloop : SubstituteVariables.subsBoundsLoop src
      { QuadraticProgram.empty nm with vars := (QuadraticProgram.empty nm).vars ++ src.vars } []
      = Except.ok ({ QuadraticProgram.empty nm with
          vars := (QuadraticProgram.empty nm).vars ++ src.vars },
        SubstitutionStatus.success) := rfl
  simp only [hloop]
  have hany : ({ QuadraticProgram.empty nm with
      vars := (QuadraticProgram.empty nm).vars ++ src.vars } : QuadraticProgram).vars.any
      (fun v => decide (v.upperbound < v.lowerbound)) = false := by
    simp only [QuadraticProgram.empty, List.nil_append, List.any_eq_false]
    intro v hv
    simpa using not_lt.mpr (hb v hv)
  simp [QuadraticProgram.empty]
  exact hb

/-- `_linear_constraints` with the empty substitution dictionary copies every
(nonempty, well-formed) constraint verbatim. -/
theorem passLinear_empty (src : QuadraticProgram) (dst : QuadraticProgram)
    (l : List LinearConstraint)
    (hc : ∀ c ∈ l, c.name ≠ "" ∧ linDictWF c.linear ∧ c.linear ≠ [])
    (hnd : ((dst.linear_constraints ++ l).map (fun c => c.name)).Nodup) :
    SubstituteVariables.passLinear src [] dst l
      = Except.ok ({ dst with linear_constraints := dst.linear_constraints ++ l },
          SubstitutionStatus.success) := by
  induction l generalizing dst with
  | nil => simp [SubstituteVariables.passLinear]
  | cons c rest ih =>
    obtain ⟨hcn, hcwf, hcnil⟩ := hc c (by simp)
    rw [SubstituteVariables.passLinear]
    have hsub := linearExpressionSub_empty c.linear hcwf
    have hrhs : -(((-c.rhs) :: ([] : List ℚ)).sum) = c.rhs := by simp
    have htaken : dst.constraintNameTaken c.name = false := by
      have hmem : ¬ c.name ∈ dst.linear_constraints.map (fun c => c.name) := by
        intro hm
        rw [List.map_append] at hnd
        exact (List.nodup_append.mp hnd).2.2 hm (by simp)
      rw [QuadraticProgram.constraintNameTaken, List.any_eq_false]
      intro c2 hc2
      simp only [decide_eq_true_eq]
      exact fun he => hmem (List.mem_map.mpr ⟨c2, hc2, he⟩)
    have hadd : dst.linear_constraint c.linear c.sense c.rhs (some c.name)
        = Except.ok { dst with linear_constraints := dst.linear_constraints ++ [c] } := by
      rw [QuadraticProgram.linear_constraint, if_neg hcn, if_neg (by simp [htaken])]
      rw [pruneZeros_eq_self c.linear hcwf.2.1]
    simp only [hsub, hrhs, hcnil, Bind.bind, Except.bind]
    simp only [hadd]
    have hih := ih { dst with linear_constraints := dst.linear_constraints ++ [c] }
      (fun c2 h2 => hc c2 (by simp [h2])) (by simpa using hnd)
    rw [hih]
    simp
    intro h
    exact absurd h hcnil

/-- `_quadratic_constraints` with the empty substitution dictionary copies
every (nonempty, well-formed) constraint verbatim. -/
theorem passQuadratic_empty (src : QuadraticProgram) (dst : QuadraticProgram)
    (l : List QuadraticConstraint)
    (hc : ∀ c ∈ l, c.name ≠ "" ∧ linDictWF c.linear ∧ quadDictWF c.quadratic ∧ c.quadratic ≠ [])
    (hnd : ((dst.quadratic_constraints ++ l).map (fun c => c.name)).Nodup) :
    SubstituteVariables.passQuadratic src [] dst l
      = Except.ok ({ dst with quadratic_constraints := dst.quadratic_constraints ++ l },
          SubstitutionStatus.success) := by
  induction l generalizing dst with
  | nil => simp [SubstituteVariables.passQuadratic]
  | cons c rest ih =>
    obtain ⟨hcn, hclwf, hcqwf, hcnil⟩ := hc c (by simp)
    rw [SubstituteVariables.passQuadratic]
    have hsub1 := linearExpressionSub_empty c.linear hclwf
    have hsub2 := quadraticExpressionSub_empty c.quadratic hcqwf
    have hrhs : -(((-c.rhs) :: (([] : List ℚ) ++ [])).sum) = c.rhs := by simp
    have htaken : dst.quadConstraintNameTaken c.name = false := by
      have hmem : ¬ c.name ∈ dst.quadratic_constraints.map (fun c => c.name) := by
        intro hm
        rw [List.map_append] at hnd
        exact (List.nodup_append.mp hnd).2.2 hm (by simp)
      rw [QuadraticProgram.quadConstraintNameTaken, List.any_eq_false]
      intro c2 hc2
      simp only [decide_eq_true_eq]
      exact fun he => hmem (List.mem_map.mpr ⟨c2, hc2, he⟩)
    have hadd : dst.quadratic_constraint c.linear c.quadratic c.sense c.rhs (some c.name)
        = Except.ok { dst with
            quadratic_constraints := dst.quadratic_constraints ++ [c] } := by
      rw [QuadraticProgram.quadratic_constraint, if_neg hcn, if_neg (by simp [htaken])]
      rw [pruneZeros_eq_self c.linear hclwf.2.1, pruneZeros_eq_self c.quadratic hcqwf.2.1]
    simp only [hsub1, hsub2, hrhs, hcnil, accumInto_nil, Bind.bind, Except.bind]
    simp only [hadd]
    have hih := ih { dst with quadratic_constraints := dst.quadratic_constraints ++ [c] }
      (fun c2 h2 => hc c2 (by simp [h2])) (by simpa using hnd)
    rw [hih]
    simp
    intro h
    exact absurd h hcnil

/-- `_objective` with the empty substitution dictionary reproduces the
objective. -/
theorem passObjective_empty (src : QuadraticProgram) (dst : QuadraticProgram)
    (hl : linDictWF src.objective.linear) (hq : quadDictWF src.objective.quadratic) :
    SubstituteVariables.passObjective src [] dst
      = ({ dst with objective := src.objective }, SubstitutionStatus.success) := by
  unfold SubstituteVariables.passObjective
  have hsub1 := linearExpressionSub_empty src.objective.linear hl
  have hsub2 := quadraticExpressionSub_empty src.objective.quadratic hq
  simp only [hsub1, hsub2]
  have hconst : ((src.objective.constant :: (([] : List ℚ) ++ [])).sum) =
      src.objective.constant := by simp
  cases hobj : src.objective with
  | mk cst lin quad sense =>
    rw [hobj] at hl hq
    have h1 : pruneZeros lin = lin := pruneZeros_eq_self lin hl.2.1
    have h2 : pruneZeros quad = quad := pruneZeros_eq_self quad hq.2.1
    cases sense with
    | minimize =>
      simp [QuadraticProgram.minimize, accumInto_nil, h1, h2]
    | maximize =>
      simp [QuadraticProgram.maximize, accumInto_nil, h1, h2]

/-- A program with a single empty-bodied linear constraint `0 <= -1`
(constructible through the public API via `linear_constraint()` with the
default empty coefficients). -/
def c4bad : QuadraticProgram :=
  ⟨"", [], [⟨"c0", [], ConstraintSense.le, -1⟩], [], ⟨0, [], [], ObjSense.minimize⟩⟩

/-- C4, counterexample: the empty substitution on `c4bad` does not return
status Success with an identical program — the all-constant constraint is
evaluated, found infeasible, and the call returns status infeasible (and
drops the constraint from the returned program). -/
theorem c4_counterexample :
    SubstituteVariables.substitute_variables c4bad [] []
      = Except.ok (QuadraticProgram.empty "", SubstitutionStatus.infeasible)
    ∧ SubstitutionStatus.infeasible ≠ SubstitutionStatus.success := by
  refine ⟨?_, by decide⟩
  norm_num [SubstituteVariables.substitute_variables, SubstituteVariables.subsDict,
    SubstituteVariables.subsDictConst, SubstituteVariables.subsDictVars,
    SubstituteVariables.hasKey, SubstituteVariables.subsGet,
    SubstituteVariables.passVariables, SubstituteVariables.copyVars,
    SubstituteVariables.subsBoundsLoop, SubstituteVariables.passObjective,
    SubstituteVariables.linearExpressionSub, SubstituteVariables.quadraticExpressionSub,
    upsert, pruneZeros, accumInto, SubstituteVariables.passLinear,
    SubstituteVariables.passQuadratic, SubstituteVariables.feasibleRhs,
    QuadraticProgram.minimize, QuadraticProgram.empty, c4bad, Bind.bind, Except.bind]

/-- C4, amended: for every *well-formed* program — unique nonempty names,
ordered variable bounds, canonical sparse expressions, and constraints whose
bodies are nonempty — `substitute_variables` with empty maps returns status
Success and a program numerically identical, coefficient for coefficient,
to the source.  (Without these conditions the claim fails: see the
counterexample, where an empty-bodied constraint flips the status to
infeasible.) -/
theorem c4_empty_substitution_roundtrip (p : QuadraticProgram) (h : WellFormed p) :
    SubstituteVariables.substitute_variables p [] []
      = Except.ok (p, SubstitutionStatus.success) := by
  obtain ⟨hvn, hvne, hvb, hol, hoq, hlcn, hlc, hqcn, hqc⟩ := h
  have hv := passVariables_empty p p.name hvne hvn hvb
  have ho := passObjective_empty p
    { QuadraticProgram.empty p.name with vars := p.vars } hol hoq
  have hl := passLinear_empty p
    { { QuadraticProgram.empty p.name with vars := p.vars } with objective := p.objective }
    p.linear_constraints hlc (by simpa [QuadraticProgram.empty] using hlcn)
  have hq := passQuadratic_empty p
    { { { QuadraticProgram.empty p.name with vars := p.vars } with
        objective := p.objective } with
      linear_constraints :=
        ({ { QuadraticProgram.empty p.name with vars := p.vars } with
          objective := p.objective } : QuadraticProgram).linear_constraints
          ++ p.linear_constraints }
    p.quadratic_constraints hqc (by simpa [QuadraticProgram.empty] using hqcn)
  have hdict : SubstituteVariables.subsDict p [] [] = Except.ok [] := rfl
  unfold SubstituteVariables.substitute_variables
  simp only [hdict, Bind.bind, Except.bind]
  simp only [hv]
  simp only [ho]
  simp only [hl]
  simp only [hq]
  simp only [QuadraticProgram.empty, List.nil_append]
  simp

/-- C4, witness: the amended claim applied to the concrete one-variable
program. -/
theorem c4_empty_substitution_roundtrip_witness :
    SubstituteVariables.substitute_variables exC9 [] []
      = Except.ok (exC9, SubstitutionStatus.success) :=
  c4_empty_substitution_roundtrip exC9
    (by unfold WellFormed linDictWF quadDictWF; decide)

/-! ## Claim C5: chained substitutions -/

/-- Source program for C5: three unit-box continuous variables. -/
def c5src : QuadraticProgram :=
  ⟨"", [⟨"x", 0, 1, VarType.continuous⟩, ⟨"y", 0, 1, VarType.continuous⟩,
    ⟨"z", 0, 1, VarType.continuous⟩], [], [], ⟨0, [], [], ObjSense.minimize⟩⟩

/-- C5, counterexample: with `x <- y * 2` listed *before* the entry that
substitutes `y` itself (`y <- z * 3`), `_subs_dict` raises no
chained-substitution error — setup succeeds, and the call fails later, inside
the variables pass, with a key-lookup error on `y` (which was never copied to
the destination).  With the two entries swapped, the chained-substitution
error is raised during setup, showing the check is order-dependent. -/
theorem c5_counterexample :
    SubstituteVariables.substitute_variables c5src [] [("x", "y", 2), ("y", "z", 3)]
      = Except.error (QError.keyError "y")
    ∧ SubstituteVariables.substitute_variables c5src [] [("y", "z", 3), ("x", "y", 2)]
      = Except.error (QError.chainedSubstitution "y")
    ∧ (∀ nm, QError.keyError "y" ≠ QError.chainedSubstitution nm) := by
  have hxy : (("x" : String) = "y") = False := eq_false (by decide)
  have hyx : (("y" : String) = "x") = False := eq_false (by decide)
  have hxz : (("x" : String) = "z") = False := eq_false (by decide)
  have hzx : (("z" : String) = "x") = False := eq_false (by decide)
  have hyz : (("y" : String) = "z") = False := eq_false (by decide)
  have hzy : (("z" : String) = "y") = False := eq_false (by decide)
  have hxc : (("x" : String) = SubstituteVariables.CONST) = False := eq_false (by decide)
  have hyc : (("y" : String) = SubstituteVariables.CONST) = False := eq_false (by decide)
  have hzc : (("z" : String) = SubstituteVariables.CONST) = False := eq_false (by decide)
  have hxe : (("x" : String) = "") = False := eq_false (by decide)
  have hye : (("y" : String) = "") = False := eq_false (by decide)
  have hze : (("z" : String) = "") = False := eq_false (by decide)
  refine ⟨?_, ?_, fun nm h => QError.noConfusion h⟩
  all_goals
    norm_num [SubstituteVariables.substitute_variables, SubstituteVariables.subsDict,
      SubstituteVariables.subsDictConst, SubstituteVariables.subsDictVars,
      SubstituteVariables.hasKey, SubstituteVariables.subsGet,
      SubstituteVariables.passVariables, SubstituteVariables.copyVars,
      SubstituteVariables.subsBoundsLoop, SubstituteVariables.passObjective,
      SubstituteVariables.linearExpressionSub, SubstituteVariables.quadraticExpressionSub,
      upsert, pruneZeros, accumInto, SubstituteVariables.passLinear,
      SubstituteVariables.passQuadratic, QuadraticProgram.minimize,
      QuadraticProgram.add_variable, QuadraticProgram.varNameTaken, QuadraticProgram.findVar,
      QuadraticProgram.empty, infinity, Bind.bind, Except.bind, c5src,
      hxy, hyx, hxz, hzx, hyz, hzy, hxc, hyc, hzc, hxe, hye, hze]

/-- C5, amended: the chained-substitution error fires exactly when the
substituted key is registered *before* the substitution that targets it —
always for a key in `constants` (processed first), and for a key in
`variables` only when it precedes the targeting entry; a key appearing after
the entry that targets it passes setup and the call fails later, during the
variables pass, with a key-lookup error instead. -/
theorem c5_chained_substitution_order (src : QuadraticProgram) (i j : String)
    (vi vj : Variable) (cv v : ℚ) (hvi : src.findVar i = some vi)
    (hvj : src.findVar j = some vj) (hv : v ≠ 0) (hne : vi.name ≠ vj.name) :
    SubstituteVariables.substitute_variables src [(j, cv)] [(i, j, v)]
      = Except.error (QError.chainedSubstitution vj.name)
    ∧ (∀ (k : String) (vk : Variable) (w : ℚ), src.findVar k = some vk → w ≠ 0 →
        vj.name ≠ vk.name →
        SubstituteVariables.substitute_variables src [] [(j, k, w), (i, j, v)]
          = Except.error (QError.chainedSubstitution vj.name)) := by
  have hji : (vj.name = vi.name) = False := eq_false (fun h => hne h.symm)
  have hij : (vi.name = vj.name) = False := eq_false hne
  constructor
  · have hsub : SubstituteVariables.subsDict src [(j, cv)] [(i, j, v)]
        = Except.error (QError.chainedSubstitution vj.name) := by
      simp [SubstituteVariables.subsDict, SubstituteVariables.subsDictConst,
        SubstituteVariables.subsDictVars, SubstituteVariables.hasKey, hvi, hvj, hv,
        hji, hij, Bind.bind, Except.bind]
    simp [SubstituteVariables.substitute_variables, hsub, Bind.bind, Except.bind]
  · intro k vk w hvk hw hjk
    have hkj : (vk.name = vj.name) = False := eq_false (fun h => hjk h.symm)
    have hsub : SubstituteVariables.subsDict src [] [(j, k, w), (i, j, v)]
        = Except.error (QError.chainedSubstitution vj.name) := by
      simp [SubstituteVariables.subsDict, SubstituteVariables.subsDictConst,
        SubstituteVariables.subsDictVars, SubstituteVariables.hasKey, hvi, hvj, hvk, hv, hw,
        hji, hij, hjk, hkj, Bind.bind, Except.bind]
    simp [SubstituteVariables.substitute_variables, hsub, Bind.bind, Except.bind]

/-- C5, witness: the amended statement at the three-variable program. -/
theorem c5_chained_substitution_order_witness :
    SubstituteVariables.substitute_variables c5src [("y", 7)] [("x", "y", 2)]
      = Except.error (QError.chainedSubstitution "y")
    ∧ (∀ (k : String) (vk : Variable) (w : ℚ), c5src.findVar k = some vk → w ≠ 0 →
        ("y" : String) ≠ vk.name →
        SubstituteVariables.substitute_variables c5src [] [("y", k, w), ("x", "y", 2)]
          = Except.error (QError.chainedSubstitution "y")) :=
  c5_chained_substitution_order c5src "x" "y" ⟨"x", 0, 1, VarType.continuous⟩
    ⟨"y", 0, 1, VarType.continuous⟩ 7 2 (by decide) (by decide) (by norm_num) (by decide)

/-! ## Claim C7: kron endianness of materialized matrices -/

namespace OperatorMatrix

/-- Right-to-left product of a gate list (circuit order: first gate applied
first). -/
def prodRev2 (l : List Mat2) : Mat2 := l.foldl (fun U g => g * U) 1

def prodRev4 (l : List Mat4) : Mat4 := l.foldl (fun U g => g * U) 1

theorem foldl_mul_shift {M : Type} [Monoid M] (l : List M) (X : M) :
    l.foldl (fun U g => g * U) X = l.foldl (fun U g => g * U) 1 * X := by
  induction l generalizing X with
  | nil => simp
  | cons g t ih =>
    simp only [List.foldl_cons]
    rw [ih (g * X), ih (g * 1)]
    simp [mul_assoc]

theorem prodRev4_cons (g : Mat4) (l : List Mat4) :
    prodRev4 (g :: l) = prodRev4 l * g := by
  unfold prodRev4
  simp only [List.foldl_cons]
  rw [foldl_mul_shift]
  simp

theorem prodRev2_cons (g : Mat2) (l : List Mat2) :
    prodRev2 (g :: l) = prodRev2 l * g := by
  unfold prodRev2
  simp only [List.foldl_cons]
  rw [foldl_mul_shift]
  simp

theorem prodRev4_append (l1 l2 : List Mat4) :
    prodRev4 (l1 ++ l2) = prodRev4 l2 * prodRev4 l1 := by
  unfold prodRev4
  rw [List.foldl_append, foldl_mul_shift]

/-- Product of gates placed on the low qubit: the low Kronecker factor. -/
theorem prodRev_low (gs : List Mat2) :
    prodRev4 (gs.map (fun g => embedGate (g, false)))
      = Matrix.kroneckerMap (· * ·) (1 : Mat2) (prodRev2 gs) := by
  induction gs with
  | nil =>
    show (1 : Mat4) = _
    rw [show prodRev2 [] = 1 from rfl]
    exact (Matrix.one_kronecker_one).symm
  | cons g t ih =>
    rw [List.map_cons, prodRev4_cons, prodRev2_cons, ih]
    have : embedGate (g, false) = Matrix.kroneckerMap (· * ·) (1 : Mat2) g := rfl
    rw [this, ← Matrix.mul_kronecker_mul]
    simp

/-- Product of gates placed on the high qubit: the high Kronecker factor. -/
theorem prodRev_high (gs : List Mat2) :
    prodRev4 (gs.map (fun g => embedGate (g, true)))
      = Matrix.kroneckerMap (· * ·) (prodRev2 gs) (1 : Mat2) := by
  induction gs with
  | nil =>
    show (1 : Mat4) = _
    rw [show prodRev2 [] = 1 from rfl]
    exact (Matrix.one_kronecker_one).symm
  | cons g t ih =>
    rw [List.map_cons, prodRev4_cons, prodRev2_cons, ih]
    have : embedGate (g, true) = Matrix.kroneckerMap (· * ·) g (1 : Mat2) := rfl
    rw [this, ← Matrix.mul_kronecker_mul]
    simp

/-- Materializing `a.kron(b)` gives the Kronecker product with `a`'s matrix
as the high (left) factor and `b`'s as the low (right) one. -/
theorem kron_to_matrix (a b : OpCircuit1) :
    to_matrix2 (kron a b)
      = Matrix.kroneckerMap (· * ·) (to_matrix1 a) (to_matrix1 b) := by
  unfold to_matrix2 to_matrix1 kron
  have hu : unitary2 ⟨b.primitive.gates.map (fun g => (g, false))
      ++ a.primitive.gates.map (fun g => (g, true))⟩
      = Matrix.kroneckerMap (· * ·) (unitary1 a.primitive) (unitary1 b.primitive) := by
    unfold unitary2
    rw [show ∀ (l : List (Mat2 × Bool)), l.foldl (fun U gp => embedGate gp * U) 1
        = prodRev4 (l.map embedGate) from fun l => by
      unfold prodRev4; rw [List.foldl_map]]
    rw [List.map_append, List.map_map, List.map_map, prodRev4_append]
    have h1 : (embedGate ∘ fun g => (g, false)) = fun g => embedGate (g, false) := rfl
    have h2 : (embedGate ∘ fun g => (g, true)) = fun g => embedGate (g, true) := rfl
    rw [h1, h2, prodRev_low, prodRev_high, ← Matrix.mul_kronecker_mul]
    unfold unitary1 prodRev2
    simp
  rw [hu]
  rw [show (a.coeff * b.coeff) • Matrix.kroneckerMap (· * ·) (unitary1 a.primitive)
      (unitary1 b.primitive) = a.coeff • b.coeff • Matrix.kroneckerMap (· * ·)
      (unitary1 a.primitive) (unitary1 b.primitive) from (smul_smul _ _ _).symm]
  rw [← Matrix.kronecker_smul, ← Matrix.smul_kronecker]

/-- The Pauli X matrix. -/
def Xg : Mat2 := fun i j => if i = j then 0 else 1

/-- The X gate as a one-qubit circuit operator. -/
def opX : OpCircuit1 := ⟨⟨[Xg]⟩, 1⟩

/-- The identity one-qubit circuit operator (no gates). -/
def opI : OpCircuit1 := ⟨⟨[]⟩, 1⟩

end OperatorMatrix

/-- C7, counterexample: for `A = X` and `B = I`, materializing `A.kron(B)`
does *not* give `matrix(B) ⊗ matrix(A)` — the entry at row index 1 (qubit 1
set), column 0 is 1 on the left and 0 on the right. -/
theorem c7_counterexample :
    OperatorMatrix.to_matrix2 (OperatorMatrix.kron OperatorMatrix.opX OperatorMatrix.opI)
      ≠ Matrix.kroneckerMap (· * ·) (OperatorMatrix.to_matrix1 OperatorMatrix.opI)
          (OperatorMatrix.to_matrix1 OperatorMatrix.opX) := by
  intro h
  rw [OperatorMatrix.kron_to_matrix] at h
  have := congrFun (congrFun h ((1 : Fin 2), (0 : Fin 2))) ((0 : Fin 2), (0 : Fin 2))
  simp only [Matrix.kroneckerMap_apply, OperatorMatrix.to_matrix1,
    OperatorMatrix.unitary1, OperatorMatrix.opX, OperatorMatrix.opI, List.foldl_cons,
    List.foldl_nil, Matrix.mul_one, one_smul, OperatorMatrix.Xg] at this
  simp [Matrix.one_apply] at this

/-- C7, amended: materializing `A.kron(B)` for single-qubit operators yields
`matrix(A) ⊗ matrix(B)` — `B`'s qubits are the low-index block (appended on
qubits `[0:1]`), which under the little-endian index convention is the
*right* Kronecker factor, not the left one. -/
theorem c7_kron_matrix (a b : OperatorMatrix.OpCircuit1) :
    OperatorMatrix.to_matrix2 (OperatorMatrix.kron a b)
      = Matrix.kroneckerMap (· * ·) (OperatorMatrix.to_matrix1 a)
          (OperatorMatrix.to_matrix1 b) :=
  OperatorMatrix.kron_to_matrix a b

/-! ## Claim C8: the add dispatch -/

/-- Two `OpVec` nodes of different qubit counts (1 and 2). -/
def vec1 : OperatorNodes.OpNode :=
  OperatorNodes.OpNode.vec [OperatorNodes.OpNode.circuit ⟨1, []⟩ 1] 1

def vec2 : OperatorNodes.OpNode :=
  OperatorNodes.OpNode.vec [OperatorNodes.OpNode.circuit ⟨2, []⟩ 1] 1

/-- C8, counterexample: `OpVec.add` on operands with different qubit counts
raises nothing — it happily returns the two-element `OpSum`. -/
theorem c8_counterexample :
    OperatorNodes.opVecAdd [OperatorNodes.OpNode.circuit ⟨1, []⟩ 1] 1 vec2
      = OperatorNodes.OpNode.opsum [vec1, vec2] 1
    ∧ OperatorNodes.num_qubits vec1 ≠ OperatorNodes.num_qubits vec2 := by
  constructor
  · simp [OperatorNodes.opVecAdd, OperatorNodes.nodeEq, OperatorNodes.nodeEqList,
      vec1, vec2]
  · simp [OperatorNodes.num_qubits, OperatorNodes.num_qubits_list, vec1, vec2]

/-- C8, amended: `OpCircuit.add` checks the qubit counts (raising a
dimension-mismatch error), returns a single merged node when the other
operand is an `OpCircuit` with an equal primitive, and a two-element `OpSum`
otherwise; `OpVec.add` performs *no* qubit-count check — whatever the
operands' sizes, it returns `self.mul(2)` when the nodes compare equal and
the two-element `OpSum` otherwise. -/
theorem c8_add_dispatch :
    (∀ (p : OperatorNodes.Instruction) (c : ℚ) (other : OperatorNodes.OpNode),
      p.num_qubits ≠ OperatorNodes.num_qubits other →
      OperatorNodes.opCircuitAdd p c other
        = Except.error (QError.dimensionMismatch p.num_qubits
            (OperatorNodes.num_qubits other)))
    ∧ (∀ (p p2 : OperatorNodes.Instruction) (c c2 : ℚ),
      p.num_qubits = p2.num_qubits → p = p2 →
      OperatorNodes.opCircuitAdd p c (OperatorNodes.OpNode.circuit p2 c2)
        = Except.ok (OperatorNodes.OpNode.circuit p (c + c2)))
    ∧ (∀ (p p2 : OperatorNodes.Instruction) (c c2 : ℚ),
      p.num_qubits = p2.num_qubits → p ≠ p2 →
      OperatorNodes.opCircuitAdd p c (OperatorNodes.OpNode.circuit p2 c2)
        = Except.ok (OperatorNodes.OpNode.opsum
            [OperatorNodes.OpNode.circuit p c, OperatorNodes.OpNode.circuit p2 c2] 1))
    ∧ (∀ (l : List OperatorNodes.OpNode) (c : ℚ) (other : OperatorNodes.OpNode),
      OperatorNodes.opVecAdd l c other
        = if OperatorNodes.nodeEq (OperatorNodes.OpNode.vec l c) other
          then OperatorNodes.OpNode.vec l (c * 2)
          else OperatorNodes.OpNode.opsum [OperatorNodes.OpNode.vec l c, other] 1) := by
  refine ⟨?_, ?_, ?_, ?_⟩
  · intro p c other hne
    cases other <;> simp_all [OperatorNodes.opCircuitAdd]
  · intro p p2 c c2 heq hp
    subst hp
    simp [OperatorNodes.opCircuitAdd, OperatorNodes.num_qubits]
  · intro p p2 c c2 heq hp
    simp [OperatorNodes.opCircuitAdd, OperatorNodes.num_qubits, heq, hp]
  · intro l c other
    rw [OperatorNodes.opVecAdd, OperatorNodes.opVecMul]

/-- C8, witness: the dispatch applied at concrete nodes. -/
theorem c8_add_dispatch_witness :
    OperatorNodes.opCircuitAdd ⟨1, []⟩ 1 (OperatorNodes.OpNode.circuit ⟨2, []⟩ 1)
      = Except.error (QError.dimensionMismatch 1 2)
    ∧ OperatorNodes.opCircuitAdd ⟨1, []⟩ 1 (OperatorNodes.OpNode.circuit ⟨1, []⟩ 2)
      = Except.ok (OperatorNodes.OpNode.circuit ⟨1, []⟩ (1 + 2))
    ∧ OperatorNodes.opCircuitAdd ⟨1, []⟩ 1 (OperatorNodes.OpNode.circuit ⟨1, [OperatorNodes.Gate.gate 0]⟩ 2)
      = Except.ok (OperatorNodes.OpNode.opsum
          [OperatorNodes.OpNode.circuit ⟨1, []⟩ 1,
            OperatorNodes.OpNode.circuit ⟨1, [OperatorNodes.Gate.gate 0]⟩ 2] 1) := by
  refine ⟨?_, ?_, ?_⟩
  · exact c8_add_dispatch.1 ⟨1, []⟩ 1 (OperatorNodes.OpNode.circuit ⟨2, []⟩ 1) (by decide)
  · exact c8_add_dispatch.2.1 ⟨1, []⟩ ⟨1, []⟩ 1 2 rfl rfl
  · exact c8_add_dispatch.2.2.1 ⟨1, []⟩ ⟨1, [OperatorNodes.Gate.gate 0]⟩ 1 2 rfl (by decide)

/-! ## Claim C6: immutability and `reduce` -/

/-- A store holding one instruction definition `[IGate, gate 0]`. -/
def c6store : MutableModel.Store := ⟨[[MutableModel.CGate.igate, MutableModel.CGate.gate 0]]⟩

/-- C6, counterexample: `reduce` on the node referencing that definition
returns the *same* node and overwrites the store entry — the underlying
primitive of a previously constructed node is mutated in place. -/
theorem c6_counterexample :
    (MutableModel.opReduce c6store ⟨0, 1⟩).2 = ⟨0, 1⟩
    ∧ (MutableModel.opReduce c6store ⟨0, 1⟩).1.defs = [[MutableModel.CGate.gate 0]]
    ∧ MutableModel.defAt c6store 0 = [MutableModel.CGate.igate, MutableModel.CGate.gate 0]
    ∧ (MutableModel.opReduce c6store ⟨0, 1⟩).1 ≠ c6store := by
  refine ⟨rfl, rfl, rfl, ?_⟩
  intro h
  have := congrArg (fun s => s.defs) h
  simp [MutableModel.opReduce, c6store, MutableModel.defAt,
    MutableModel.reduceDefinition, MutableModel.reduceGo] at this

/-- C6, amended: the algebraic operations `mul`, `add`, `adjoint` and `kron`
leave every existing store entry untouched (they only read, or append fresh
definitions), while `OpCircuit.reduce` returns the very node it was given and
overwrites its primitive's definition in place with the identity gates
deleted. -/
theorem c6_reduce_mutates_in_place :
    (∀ (s : MutableModel.Store) (n : MutableModel.CNode) (k : ℚ),
      (MutableModel.opMul s n k).1 = s)
    ∧ (∀ (s : MutableModel.Store) (a b : MutableModel.CNode),
      (MutableModel.opAdd s a b).1 = s)
    ∧ (∀ (s : MutableModel.Store) (n : MutableModel.CNode),
      (MutableModel.opAdjoint s n).1.defs.take s.defs.length = s.defs)
    ∧ (∀ (s : MutableModel.Store) (a b : MutableModel.CNode),
      (MutableModel.opKron s a b).1.defs.take s.defs.length = s.defs)
    ∧ (∀ (s : MutableModel.Store) (n : MutableModel.CNode),
      (MutableModel.opReduce s n).2 = n
      ∧ (MutableModel.opReduce s n).1.defs
        = s.defs.set n.primId
            (MutableModel.reduceDefinition (MutableModel.defAt s n.primId))) := by
  refine ⟨fun s n k => rfl, ?_, ?_, ?_, fun s n => ⟨rfl, rfl⟩⟩
  · intro s a b
    rw [MutableModel.opAdd]
    by_cases h : MutableModel.defAt s a.primId = MutableModel.defAt s b.primId
    · rw [if_pos h]
    · rw [if_neg h]
  · intro s n
    exact List.take_left _ _
  · intro s a b
    exact List.take_left _ _

/-! ## Claim C1: the QUBO pipeline output shape -/

theorem string_append_eq_empty {a b : String} (h : a ++ b = "") : a = "" ∧ b = "" := by
  have hd := congrArg String.data h
  rw [String.data_append a b] at hd
  have h2 := List.append_eq_nil.mp hd
  exact ⟨String.ext h2.1, String.ext h2.2⟩

/-- An empty compatibility message means no continuous variables and no
quadratic constraints. -/
theorem compat_msg_empty (p : QuadraticProgram) (h : get_compatibility_msg p = "") :
    p.get_num_continuous_vars = 0 ∧ p.quadratic_constraints = [] := by
  simp only [get_compatibility_msg] at h
  obtain ⟨h1, h23⟩ := string_append_eq_empty h
  obtain ⟨h2, _⟩ := string_append_eq_empty h23
  constructor
  · by_contra hc
    rw [if_pos (Nat.pos_of_ne_zero hc)] at h1
    exact absurd h1 (by decide)
  · by_contra hc
    rw [if_pos (List.length_pos.mpr hc)] at h2
    exact absurd h2 (by decide)

/-- Count of variables of a type is zero iff no variable has the type. -/
theorem get_num_vars_of_type_eq_zero (p : QuadraticProgram) (t : VarType) :
    p.get_num_vars_of_type t = 0 ↔ ∀ v ∈ p.vars, v.vartype ≠ t := by
  unfold QuadraticProgram.get_num_vars_of_type
  rw [List.length_eq_zero, List.filter_eq_nil]
  constructor
  · intro hf v hv he
    exact hf v hv (by simp [he])
  · intro hf v hv hd
    exact hf v hv (by simpa using hd)

/-- Every slack variable created by the inequality-to-equality stage is an
integer variable. -/
theorem slackVars_integer (p : QuadraticProgram) (c : LinearConstraint) :
    ∀ v ∈ InequalityToEquality.slackVarsFor p c, v.vartype = VarType.integer := by
  intro v hv
  unfold InequalityToEquality.slackVarsFor at hv
  obtain ⟨nm, lin, sen, rhs⟩ := c
  cases sen <;> simp_all

/-- Every constraint emitted by the inequality-to-equality stage is an
equality. -/
theorem equalized_sense (c : LinearConstraint) :
    (InequalityToEquality.equalized c).sense = ConstraintSense.eq := by
  obtain ⟨nm, lin, sen, rhs⟩ := c
  cases sen <;> rfl

/-- The integer-to-binary stage leaves no integer variable behind. -/
theorem convertVars_no_integer (p : QuadraticProgram) :
    ∀ v ∈ IntegerToBinary.convertVars p, v.vartype ≠ VarType.integer := by
  intro v hv
  unfold IntegerToBinary.convertVars at hv
  rw [List.mem_flatMap] at hv
  obtain ⟨w, hw, hv2⟩ := hv
  by_cases hwt : w.vartype = VarType.integer
  · rw [if_pos hwt] at hv2
    rw [List.mem_map] at hv2
    obtain ⟨kw, _, hkw⟩ := hv2
    rw [← hkw]
    simp
  · rw [if_neg hwt] at hv2
    simp only [List.mem_singleton] at hv2
    rw [hv2]
    exact hwt

/-- The integer-to-binary stage creates no continuous variable. -/
theorem convertVars_continuous (p : QuadraticProgram)
    (h : ∀ v ∈ p.vars, v.vartype ≠ VarType.continuous) :
    ∀ v ∈ IntegerToBinary.convertVars p, v.vartype ≠ VarType.continuous := by
  intro v hv
  unfold IntegerToBinary.convertVars at hv
  rw [List.mem_flatMap] at hv
  obtain ⟨w, hw, hv2⟩ := hv
  by_cases hwt : w.vartype = VarType.integer
  · rw [if_pos hwt] at hv2
    rw [List.mem_map] at hv2
    obtain ⟨kw, _, hkw⟩ := hv2
    rw [← hkw]
    simp
  · rw [if_neg hwt] at hv2
    simp only [List.mem_singleton] at hv2
    rw [hv2]
    exact h w hw

/-- C1: every program that passes the compatibility check converts to a
fully binary, fully unconstrained program — zero continuous variables, zero
integer variables, zero quadratic constraints, zero linear constraints. -/
theorem c1_qubo_fully_binary_unconstrained (p : QuadraticProgram)
    (h : get_compatibility_msg p = "") :
    ∃ q, QuadraticProgramToQubo.convert none p = Except.ok q
      ∧ q.get_num_continuous_vars = 0
      ∧ q.get_num_integer_vars = 0
      ∧ q.quadratic_constraints = []
      ∧ q.linear_constraints = [] := by
  obtain ⟨hcont0, hquad0⟩ := compat_msg_empty p h
  have hcont0' : ∀ v ∈ p.vars, v.vartype ≠ VarType.continuous :=
    (get_num_vars_of_type_eq_zero p VarType.continuous).mp hcont0

  set p1 := InequalityToEquality.convert p with hp1
  have hp1vars : p1.vars = p.vars ++ p.linear_constraints.flatMap
      (InequalityToEquality.slackVarsFor p) := rfl
  have hp1cont : ∀ v ∈ p1.vars, v.vartype ≠ VarType.continuous := by
    rw [hp1vars]
    intro v hv
    rcases List.mem_append.mp hv with h1 | h1
    · exact hcont0' v h1
    · rw [List.mem_flatMap] at h1
      obtain ⟨c, _, hvc⟩ := h1
      rw [slackVars_integer p c v hvc]
      simp
  have hp1quad : p1.quadratic_constraints = [] := hquad0
  have hp1sense : ∀ c ∈ p1.linear_constraints, c.sense = ConstraintSense.eq := by
    intro c hc
    have : p1.linear_constraints = p.linear_constraints.map InequalityToEquality.equalized :=
      rfl
    rw [this, List.mem_map] at hc
    obtain ⟨c0, _, hc0⟩ := hc
    rw [← hc0]
    exact equalized_sense c0
  set p2 := IntegerToBinary.convert p1 with hp2
  have hp2vars : p2.vars = IntegerToBinary.convertVars p1 := rfl
  have hp2cont : p2.get_num_continuous_vars = 0 := by
    show p2.get_num_vars_of_type VarType.continuous = 0
    rw [get_num_vars_of_type_eq_zero, hp2vars]
    exact convertVars_continuous p1 hp1cont
  have hp2int : p2.get_num_integer_vars = 0 := by
    show p2.get_num_vars_of_type VarType.integer = 0
    rw [get_num_vars_of_type_eq_zero, hp2vars]
    exact convertVars_no_integer p1
  have hp2quad : p2.quadratic_constraints = [] := by
    have : p2.quadratic_constraints = p1.quadratic_constraints.map _ := rfl
    rw [this, hp1quad]
    rfl
  have hp2sense : ∀ c ∈ p2.linear_constraints, c.sense = ConstraintSense.eq := by
    intro c hc
    have : p2.linear_constraints = p1.linear_constraints.map
        (fun c => ⟨c.name, pruneZeros (IntegerToBinary.binSubLin
          (IntegerToBinary.expansions p1) c.linear).2, c.sense,
          c.rhs - (IntegerToBinary.binSubLin (IntegerToBinary.expansions p1) c.linear).1⟩) :=
      rfl
    rw [this, List.mem_map] at hc
    obtain ⟨c0, hc0m, hc0⟩ := hc
    rw [← hc0]
    exact hp1sense c0 hc0m
  have hany : (p2.linear_constraints.any
      (fun c => decide (c.sense ≠ ConstraintSense.eq))) = false := by
    rw [List.any_eq_false]
    intro c hc
    simp [hp2sense c hc]
  obtain ⟨r, hr, hrvars, hrlin, hrquad⟩ : ∃ r,
      LinearEqualityToPenalty.convert p2 100000 = Except.ok r
      ∧ r.vars = p2.vars ∧ r.linear_constraints = []
      ∧ r.quadratic_constraints = p2.quadratic_constraints := by
    unfold LinearEqualityToPenalty.convert
    rw [if_neg (by rw [hany]; simp)]
    exact ⟨_, rfl, rfl, rfl, rfl⟩
  have hrtype : ∀ t, r.get_num_vars_of_type t = p2.get_num_vars_of_type t := by
    intro t
    unfold QuadraticProgram.get_num_vars_of_type
    rw [hrvars]
  refine ⟨r, ?_, ?_, ?_, ?_, hrlin⟩
  · unfold QuadraticProgramToQubo.convert
    rw [if_neg (by simp [h])]
    show (LinearEqualityToPenalty.convert p2 (Option.getD none 100000)) = _
    rw [show (Option.getD none 100000 : ℚ) = 100000 from rfl]
    exact hr
  · show r.get_num_vars_of_type VarType.continuous = 0
    rw [hrtype]
    exact hp2cont
  · show r.get_num_vars_of_type VarType.integer = 0
    rw [hrtype]
    exact hp2int
  · rw [hrquad]
    exact hp2quad

/-- C1, witness: a compatible two-variable program (one binary variable, one
bounded integer variable, one inequality constraint with integral
coefficients). -/
theorem c1_qubo_fully_binary_unconstrained_witness :
    ∃ q, QuadraticProgramToQubo.convert none
        ⟨"", [⟨"b", 0, 1, VarType.binary⟩, ⟨"n", 0, 3, VarType.integer⟩],
          [⟨"c0", [("b", 1), ("n", 2)], ConstraintSense.le, 5⟩], [],
          ⟨0, [("b", 1)], [], ObjSense.minimize⟩⟩ = Except.ok q
      ∧ q.get_num_continuous_vars = 0
      ∧ q.get_num_integer_vars = 0
      ∧ q.quadratic_constraints = []
      ∧ q.linear_constraints = [] :=
  c1_qubo_fully_binary_unconstrained
    ⟨"", [⟨"b", 0, 1, VarType.binary⟩, ⟨"n", 0, 3, VarType.integer⟩],
      [⟨"c0", [("b", 1), ("n", 2)], ConstraintSense.le, 5⟩], [],
      ⟨0, [("b", 1)], [], ObjSense.minimize⟩⟩
    (by decide)

end QiskitAqua
